import Mathlib

/-!
# Cuckoo filter: bucketized table, kick chain and victim slot

A shallow embedding of `CF/CuckooTable.cpp` and `DCF/CuckooFilter.cpp`.

* A bucket is the little-endian value of its byte buffer, a natural number; slot `j` of a
  bucket is the bit field `[j * bits_per_fp, (j + 1) * bits_per_fp)`.
* The table is the list of its buckets; the filter is a record of the table and the
  bookkeeping fields.  The collaborators that never change (hash function, kick budget)
  are gathered in `FilterEnv`.
* `rand()` is an input: an insertion receives `draws : Nat → Nat`, and `draws k` is the value
  `rand()` returns when it is called in round `k` of the kick loop.
* `uint32_t` and `size_t` arithmetic is arithmetic on `Nat` with explicit `% 2 ^ 32` and
  `% 2 ^ 64`.
-/

/-! ## Fingerprint codec -/

/-- Modelled from the spec: the fingerprint codec `BitManager` (the class and its five variants
`BitManager4` .. `BitManager32` are declared in a header that is not among the sources).  A
codec is fixed by the width of a fingerprint and the number of slots of a bucket. -/
structure BitManager where
  bits_per_fp : Nat
  entries_per_bucket : Nat
deriving DecidableEq, Repr

/-- Modelled from the spec: `read(slot, bucket_bytes)` of the absent `BitManager`, "extract the
bit-field at logical slot index", slots in little-endian order within the bucket. -/
def BitManager.read (bm : BitManager) (j : Nat) (bucket : Nat) : Nat :=
  (bucket >>> (j * bm.bits_per_fp)) % 2 ^ bm.bits_per_fp

/-- Modelled from the spec: `write(slot, bucket_bytes, value)` of the absent `BitManager`,
"overwrite the bit-field at slot index with `value` masked to `bits_per_fp` bits": the field is
cleared and the masked value is or-ed in. -/
def BitManager.write (bm : BitManager) (j : Nat) (bucket : Nat) (value : Nat) : Nat :=
  (bucket ^^^ (bucket &&& ((2 ^ bm.bits_per_fp - 1) <<< (j * bm.bits_per_fp))))
    ||| ((value % 2 ^ bm.bits_per_fp) <<< (j * bm.bits_per_fp))

/-- Modelled from the spec: `has_value(bucket_word, fp)` of the absent `BitManager`, "test
whether `fp` appears in any slot of a bucket, given the whole bucket pre-loaded as a single
machine word"; only the `entries_per_bucket` fields of the bucket are inspected. -/
def BitManager.hasvalue (bm : BitManager) (val : Nat) (fp : Nat) : Bool :=
  (List.range bm.entries_per_bucket).any (fun j => bm.read j val == fp)

/-! ## Table (`CF/CuckooTable.cpp`) -/

/-- The storage types the table template is instantiated with (end of `CuckooTable.cpp`). -/
inductive FpType where
  | uint8_t
  | uint16_t
  | uint32_t
  | uint64_t
deriving DecidableEq, Repr

/-- The fields of `CuckooTable`; `buckets` holds one packed word per bucket, and the template
parameters `entries_per_bucket` and `bits_per_fp` are carried by the codec. -/
structure CuckooTable where
  table_size : Nat
  fp_mask : Nat
  bit_manager : BitManager
  buckets : List Nat
deriving DecidableEq, Repr

/-- Template parameter `entries_per_bucket`. -/
def CuckooTable.entries_per_bucket (t : CuckooTable) : Nat :=
  t.bit_manager.entries_per_bucket

/-- Template parameter `bits_per_fp`. -/
def CuckooTable.bits_per_fp (t : CuckooTable) : Nat :=
  t.bit_manager.bits_per_fp

/-- The check of the constructor `CuckooTable::CuckooTable`: the five accepted combinations of
`entries_per_bucket`, `bits_per_fp` and storage type. -/
def CuckooTable.supported (fp_type : FpType) (entries_per_bucket bits_per_fp : Nat) : Bool :=
  (entries_per_bucket == 4 && bits_per_fp == 4 && fp_type == FpType.uint8_t)
  || (entries_per_bucket == 4 && bits_per_fp == 8 && fp_type == FpType.uint8_t)
  || (entries_per_bucket == 4 && bits_per_fp == 12 && fp_type == FpType.uint16_t)
  || (entries_per_bucket == 4 && bits_per_fp == 16 && fp_type == FpType.uint16_t)
  || (entries_per_bucket == 2 && bits_per_fp == 32 && fp_type == FpType.uint32_t)

/-- Constructor `CuckooTable::CuckooTable(table_size, fp_mask)`: the buckets are zeroed by
`memset`, then a codec is chosen, and an unsupported combination throws. -/
def CuckooTable.new (fp_type : FpType) (entries_per_bucket bits_per_fp : Nat)
    (table_size fp_mask : Nat) : Except String CuckooTable :=
  if entries_per_bucket = 4 ∧ bits_per_fp = 4 ∧ fp_type = FpType.uint8_t then
    Except.ok ⟨table_size, fp_mask, ⟨4, 4⟩, List.replicate table_size 0⟩
  else if entries_per_bucket = 4 ∧ bits_per_fp = 8 ∧ fp_type = FpType.uint8_t then
    Except.ok ⟨table_size, fp_mask, ⟨8, 4⟩, List.replicate table_size 0⟩
  else if entries_per_bucket = 4 ∧ bits_per_fp = 12 ∧ fp_type = FpType.uint16_t then
    Except.ok ⟨table_size, fp_mask, ⟨12, 4⟩, List.replicate table_size 0⟩
  else if entries_per_bucket = 4 ∧ bits_per_fp = 16 ∧ fp_type = FpType.uint16_t then
    Except.ok ⟨table_size, fp_mask, ⟨16, 4⟩, List.replicate table_size 0⟩
  else if entries_per_bucket = 2 ∧ bits_per_fp = 32 ∧ fp_type = FpType.uint32_t then
    Except.ok ⟨table_size, fp_mask, ⟨32, 2⟩, List.replicate table_size 0⟩
  else
    Except.error "Bits per fingerprint should be in \x7b4, 8, 12, 16, 32\x7d"

/-- `CuckooTable::getTableSize`. -/
def CuckooTable.getTableSize (t : CuckooTable) : Nat :=
  t.table_size

/-- `CuckooTable::maxNoOfElements`. -/
def CuckooTable.maxNoOfElements (t : CuckooTable) : Nat :=
  t.entries_per_bucket * t.table_size

/-- `CuckooTable::getFingerprint(i, j)`: the codec's `read`, masked with `fp_mask`. -/
def CuckooTable.getFingerprint (t : CuckooTable) (i j : Nat) : Nat :=
  (t.bit_manager.read j (t.buckets.getD i 0)) &&& t.fp_mask

/-- `CuckooTable::fingerprintCount(i)`: number of nonzero slots of bucket `i`. -/
def CuckooTable.fingerprintCount (t : CuckooTable) (i : Nat) : Nat :=
  (List.range t.entries_per_bucket).countP (fun j => t.getFingerprint i j != 0)

/-- `CuckooTable::insertFingerprint(i, j, fp)`: the codec's `write` of `fp & fp_mask`. -/
def CuckooTable.insertFingerprint (t : CuckooTable) (i j : Nat) (fp : Nat) : CuckooTable :=
  { t with buckets := t.buckets.set i (t.bit_manager.write j (t.buckets.getD i 0) (fp &&& t.fp_mask)) }

/-- `CuckooTable::replacingFingerprintInsertion(i, fp, eject, prev_fp)` with the value `r` that
`rand()` returns if it is called.  The result is the table, the returned flag and the value of
the reference parameter `prev_fp` on return. -/
def CuckooTable.replacingFingerprintInsertion (t : CuckooTable) (i : Nat) (fp : Nat)
    (eject : Bool) (prev_fp : Nat) (r : Nat) : CuckooTable × Bool × Nat :=
  match (List.range t.entries_per_bucket).find? (fun j => t.getFingerprint i j == 0) with
  | some j => (t.insertFingerprint i j fp, true, prev_fp)
  | none =>
    if eject then
      (t.insertFingerprint i (r % t.entries_per_bucket) fp, false,
        t.getFingerprint i (r % t.entries_per_bucket))
    else
      (t, false, prev_fp)

/-- `CuckooTable::containsFingerprint(i, fp)`: the word-level test on bucket `i`. -/
def CuckooTable.containsFingerprint (t : CuckooTable) (i : Nat) (fp : Nat) : Bool :=
  t.bit_manager.hasvalue (t.buckets.getD i 0) fp

/-- `CuckooTable::containsFingerprint(i1, i2, fp)`: the two-bucket form. -/
def CuckooTable.containsFingerprint2 (t : CuckooTable) (i1 i2 : Nat) (fp : Nat) : Bool :=
  t.bit_manager.hasvalue (t.buckets.getD i1 0) fp || t.bit_manager.hasvalue (t.buckets.getD i2 0) fp

/-- `CuckooTable::deleteFingerprint(fp, i)`: zero the first slot of bucket `i` that reads `fp`. -/
def CuckooTable.deleteFingerprint (t : CuckooTable) (fp : Nat) (i : Nat) : CuckooTable × Bool :=
  match (List.range t.entries_per_bucket).find? (fun j => t.getFingerprint i j == fp) with
  | some j => (t.insertFingerprint i j 0, true)
  | none => (t, false)

/-- `CuckooTable::getNumOfFreeEntries`: number of slots of the whole table that read `0`. -/
def CuckooTable.getNumOfFreeEntries (t : CuckooTable) : Nat :=
  ((List.range t.table_size).map
    (fun i => (List.range t.entries_per_bucket).countP (fun j => t.getFingerprint i j == 0))).sum

/-! ## Filter (`DCF/CuckooFilter.cpp`) -/

/-- The pending pair `victim` of the filter; `fp = 0` means that no victim is held. -/
structure Victim where
  index : Nat
  fp : Nat
deriving DecidableEq, Repr

/-- The collaborator `HashFunction`: `hash(item)` and `fingerprint(item)`. -/
structure HashFunction (α : Type) where
  hash : α → Nat
  fingerprint : α → Nat

/-- What a filter is built with and never changes: the hash function, the constant
`KICKS_MAX_COUNT` (defined in the absent header, so a parameter here) and the hash that
`fingerprintComplement` applies to a fingerprint. -/
structure FilterEnv (α : Type) where
  hash_function : HashFunction α
  KICKS_MAX_COUNT : Nat
  fp_hash : Nat → Nat

/-- The mutable fields of `CuckooFilter`. `element_count` is a `size_t`. -/
structure CuckooFilter where
  table : CuckooTable
  fp_mask : Nat
  element_count : Nat
  capacity : Nat
  is_full : Bool
  is_empty : Bool
  victim : Victim
deriving DecidableEq, Repr

/-- Modelled from the spec: `highestPowerOfTwo` (absent from the sources), "the smallest power
of two ≥ requested size"; the loop doubles `p` until it reaches `n`. -/
def highestPowerOfTwoLoop (n : Nat) : Nat → Nat → Nat
  | 0, p => p
  | fuel + 1, p => if n ≤ p then p else highestPowerOfTwoLoop n fuel (2 * p)

/-- Modelled from the spec: `highestPowerOfTwo(max_table_size)` for a `uint32_t` argument (at
most 32 doublings of 1). -/
def highestPowerOfTwo (max_table_size : Nat) : Nat :=
  highestPowerOfTwoLoop (max_table_size % 2 ^ 32) 32 1

/-- Constructor `CuckooFilter::CuckooFilter(max_table_size, bits_per_fp, entries_per_bucket,
hashFunction)`.  `capacity` is `0.95 * (table_size * entries_per_bucket)` converted to an
integer; the flags, not set by the constructor, start as those of an empty filter. -/
def CuckooFilter.new (fp_type : FpType) (max_table_size bits_per_fp entries_per_bucket : Nat) :
    Except String CuckooFilter :=
  match CuckooTable.new fp_type entries_per_bucket bits_per_fp
      (highestPowerOfTwo max_table_size) ((2 ^ bits_per_fp - 1) % 2 ^ 32) with
  | Except.ok table =>
    Except.ok
      { table := table
        fp_mask := (2 ^ bits_per_fp - 1) % 2 ^ 32
        element_count := 0
        capacity := 95 * (highestPowerOfTwo max_table_size * entries_per_bucket) / 100
        is_full := false
        is_empty := true
        victim := ⟨0, 0⟩ }
  | Except.error e => Except.error e

/-- `CuckooFilter::getIndex(hv)`: `hv & (table->getTableSize() - 1)` in `size_t`. -/
def CuckooFilter.getIndex (F : CuckooFilter) (hv : Nat) : Nat :=
  hv &&& ((F.table.getTableSize + 2 ^ 64 - 1) % 2 ^ 64)

/-- `CuckooFilter::fingerprint(hash_value)`: mask, then add one if the result is zero. -/
def CuckooFilter.fingerprint (F : CuckooFilter) (hash_value : Nat) : Nat :=
  ((hash_value &&& F.fp_mask) + (if (hash_value &&& F.fp_mask) = 0 then 1 else 0)) % 2 ^ 32

/-- `CuckooFilter::firstPass(item, &fp, &index)`: the pair `(fp, index)`. -/
def CuckooFilter.firstPass {α : Type} (env : FilterEnv α) (F : CuckooFilter) (item : α) :
    Nat × Nat :=
  (F.fingerprint (env.hash_function.fingerprint item % 2 ^ 32),
    F.getIndex (env.hash_function.hash item % 2 ^ 32))

/-- Modelled from the spec: `fingerprintComplement(index, fp)` (absent from the sources), "hashing
`fp` alone and XOR-ing the result with `i`", as the `uint32_t` that `indexComplement` stores. -/
def CuckooFilter.fingerprintComplement {α : Type} (env : FilterEnv α) (index : Nat) (fp : Nat) :
    Nat :=
  (index ^^^ env.fp_hash fp) % 2 ^ 32

/-- `CuckooFilter::indexComplement(index, fp)`, a `uint32_t`. -/
def CuckooFilter.indexComplement {α : Type} (env : FilterEnv α) (F : CuckooFilter)
    (index : Nat) (fp : Nat) : Nat :=
  F.getIndex (CuckooFilter.fingerprintComplement env index fp) % 2 ^ 32

/-- `CuckooFilter::refreshOnInsert`. -/
def CuckooFilter.refreshOnInsert (F : CuckooFilter) : CuckooFilter :=
  let count := (F.element_count + 1) % 2 ^ 64
  { F with
    element_count := count
    is_full := if count = F.capacity then true else F.is_full
    is_empty := if count > 0 then false else F.is_empty }

/-- `CuckooFilter::refreshOnDelete`: it decrements `element_count` itself. -/
def CuckooFilter.refreshOnDelete (F : CuckooFilter) : CuckooFilter :=
  let count := (F.element_count + 2 ^ 64 - 1) % 2 ^ 64
  { F with
    element_count := count
    is_full := if count < F.capacity then false else F.is_full
    is_empty := if count = 0 then true else F.is_empty }

/-- The state of the `for` loop of `CuckooFilter::insert` when it is left: the table, whether
a placement succeeded, and the variables `curr_index` and `curr_fp`. -/
structure KickResult where
  table : CuckooTable
  placed : Bool
  curr_index : Nat
  curr_fp : Nat
deriving DecidableEq, Repr

/-- The `for` loop of `CuckooFilter::insert`: `remaining` rounds are left and `kicks` is the
loop counter; round `kicks` ejects when `kicks != 0` and draws `draws kicks`. -/
def CuckooFilter.insertLoop {α : Type} (env : FilterEnv α) (F : CuckooFilter)
    (draws : Nat → Nat) : Nat → Nat → CuckooTable → Nat → Nat → KickResult
  | 0, _, t, curr_index, curr_fp => ⟨t, false, curr_index, curr_fp⟩
  | remaining + 1, kicks, t, curr_index, curr_fp =>
    if (t.replacingFingerprintInsertion curr_index curr_fp (kicks != 0) 0 (draws kicks)).2.1 then
      ⟨(t.replacingFingerprintInsertion curr_index curr_fp (kicks != 0) 0 (draws kicks)).1,
        true, curr_index, curr_fp⟩
    else
      CuckooFilter.insertLoop env F draws remaining (kicks + 1)
        (t.replacingFingerprintInsertion curr_index curr_fp (kicks != 0) 0 (draws kicks)).1
        (CuckooFilter.indexComplement env F curr_index
          (if kicks != 0 then
            (t.replacingFingerprintInsertion curr_index curr_fp (kicks != 0) 0 (draws kicks)).2.2
           else curr_fp))
        (if kicks != 0 then
          (t.replacingFingerprintInsertion curr_index curr_fp (kicks != 0) 0 (draws kicks)).2.2
         else curr_fp)

/-- `CuckooFilter::insert(fp, index)`: the kick loop, then either `refreshOnInsert` or the
recording of the victim. -/
def CuckooFilter.insert {α : Type} (env : FilterEnv α) (F : CuckooFilter) (fp : Nat)
    (index : Nat) (draws : Nat → Nat) : CuckooFilter × Bool :=
  if (CuckooFilter.insertLoop env F draws env.KICKS_MAX_COUNT 0 F.table index fp).placed then
    (CuckooFilter.refreshOnInsert
      { F with table :=
        (CuckooFilter.insertLoop env F draws env.KICKS_MAX_COUNT 0 F.table index fp).table },
      true)
  else
    ({ F with
        table := (CuckooFilter.insertLoop env F draws env.KICKS_MAX_COUNT 0 F.table index fp).table
        victim :=
          ⟨(CuckooFilter.insertLoop env F draws env.KICKS_MAX_COUNT 0 F.table index fp).curr_index,
            (CuckooFilter.insertLoop env F draws env.KICKS_MAX_COUNT 0 F.table index fp).curr_fp⟩ },
      false)

/-- `CuckooFilter::insertElement(element)`. -/
def CuckooFilter.insertElement {α : Type} (env : FilterEnv α) (F : CuckooFilter) (element : α)
    (draws : Nat → Nat) : CuckooFilter × Bool :=
  CuckooFilter.insert env F (CuckooFilter.firstPass env F element).1
    (CuckooFilter.firstPass env F element).2 draws

/-- The table after the two deletion attempts of `deleteElement`,
`deleteFingerprint(fp, i1) || deleteFingerprint(fp, i2)`, and the value of `deletion`. -/
def CuckooFilter.deleteEither (t : CuckooTable) (fp i1 i2 : Nat) : CuckooTable × Bool :=
  if (t.deleteFingerprint fp i1).2 then (t.deleteFingerprint fp i1)
  else (t.deleteFingerprint fp i1).1.deleteFingerprint fp i2

/-- `CuckooFilter::deleteElement(element)`; `draws` serves the re-insertion of the victim. -/
def CuckooFilter.deleteElement {α : Type} (env : FilterEnv α) (F : CuckooFilter) (element : α)
    (draws : Nat → Nat) : CuckooFilter × Bool :=
  let fp := (CuckooFilter.firstPass env F element).1
  let i1 := (CuckooFilter.firstPass env F element).2
  let i2 := CuckooFilter.indexComplement env F i1 fp
  let del := CuckooFilter.deleteEither F.table fp i1 i2
  if del.2 then
    let F1 : CuckooFilter :=
      { F with table := del.1, element_count := (F.element_count + 2 ^ 64 - 1) % 2 ^ 64 }
    let F2 : CuckooFilter :=
      if F1.victim.fp != 0 then
        (CuckooFilter.insert env { F1 with victim := ⟨F1.victim.index, 0⟩ } F1.victim.fp
          F1.victim.index draws).1
      else F1
    (CuckooFilter.refreshOnDelete F2, true)
  else if F.victim.fp != 0 && fp == F.victim.fp && (i1 == F.victim.index || i2 == F.victim.index) then
    ({ F with table := del.1, victim := ⟨F.victim.index, 0⟩ }, true)
  else
    ({ F with table := del.1 }, false)

/-- `CuckooFilter::containsElement(element)`. -/
def CuckooFilter.containsElement {α : Type} (env : FilterEnv α) (F : CuckooFilter)
    (element : α) : Bool :=
  let fp := (CuckooFilter.firstPass env F element).1
  let i1 := (CuckooFilter.firstPass env F element).2
  let i2 := CuckooFilter.indexComplement env F i1 fp
  (F.victim.fp != 0 && fp == F.victim.fp && (i1 == F.victim.index || i2 == F.victim.index))
    || F.table.containsFingerprint2 i1 i2 fp

/-- `CuckooFilter::availability`: the ratio of free to total number of entries, as a rational. -/
def CuckooFilter.availability (F : CuckooFilter) : ℚ :=
  (F.table.getNumOfFreeEntries : ℚ) / (F.table.maxNoOfElements : ℚ)

/-- `insertIntsInRange` of `Tests/SimpleTest.cpp` for arbitrary elements: insert one after the
other, each with its own draws, and stop at the first failure; the flag tells whether every
call returned true. -/
def CuckooFilter.insertElements {α : Type} (env : FilterEnv α) :
    CuckooFilter → List (α × (Nat → Nat)) → CuckooFilter × Bool
  | F, [] => (F, true)
  | F, op :: ops =>
    if (CuckooFilter.insertElement env F op.1 op.2).2 then
      CuckooFilter.insertElements env (CuckooFilter.insertElement env F op.1 op.2).1 ops
    else ((CuckooFilter.insertElement env F op.1 op.2).1, false)

/-- `deleteAll` of `Tests/SimpleTest.cpp` for arbitrary elements: delete one after the other and
collect the results of the calls. -/
def CuckooFilter.deleteAll {α : Type} (env : FilterEnv α) :
    CuckooFilter → List (α × (Nat → Nat)) → CuckooFilter × List Bool
  | F, [] => (F, [])
  | F, op :: ops =>
    ((CuckooFilter.deleteAll env (CuckooFilter.deleteElement env F op.1 op.2).1 ops).1,
      (CuckooFilter.deleteElement env F op.1 op.2).2 ::
        (CuckooFilter.deleteAll env (CuckooFilter.deleteElement env F op.1 op.2).1 ops).2)


/-! ## Well-formed states and counting -/

/-- The configuration invariant of a table: a power-of-two number of buckets that fits the
32-bit `max_table_size` it was rounded up from, one word per bucket, a mask of `bits_per_fp`
ones, a width between 1 and 32 and at least one slot per bucket. -/
def CuckooTable.WF (t : CuckooTable) : Prop :=
  (∃ k, k ≤ 32 ∧ t.table_size = 2 ^ k) ∧ t.buckets.length = t.table_size ∧
    t.fp_mask = 2 ^ t.bit_manager.bits_per_fp - 1 ∧ 1 ≤ t.bit_manager.bits_per_fp ∧
    t.bit_manager.bits_per_fp ≤ 32 ∧ 0 < t.bit_manager.entries_per_bucket

/-- The configuration invariant of a filter: a well-formed table and the same mask in both. -/
def CuckooFilter.WF (F : CuckooFilter) : Prop :=
  F.table.WF ∧ F.fp_mask = F.table.fp_mask

/-- Number of slots of bucket `b` that read `f`. -/
def CuckooTable.slotCount (t : CuckooTable) (b f : Nat) : Nat :=
  ((List.range t.bit_manager.entries_per_bucket).map
    (fun j => if t.getFingerprint b j = f then 1 else 0)).sum

/-- Number of slots that read `f` in the buckets of the pair of `a` under `f`, that is in
bucket `a` and in bucket `indexComplement(a, f)`. -/
def CuckooFilter.pairCount {α : Type} (env : FilterEnv α) (F : CuckooFilter) (t : CuckooTable)
    (f a : Nat) : Nat :=
  ((List.range t.table_size).map
    (fun b => if b = a ∨ b = CuckooFilter.indexComplement env F a f then t.slotCount b f else 0)).sum

/-- Number of elements of `l` whose fingerprint is `f` and whose first-pass bucket lies in the
pair of `a` under `f`. -/
def CuckooFilter.memberCount {α : Type} (env : FilterEnv α) (F : CuckooFilter) (l : List α)
    (f a : Nat) : Nat :=
  (l.map (fun e =>
    if (CuckooFilter.firstPass env F e).1 = f ∧
        ((CuckooFilter.firstPass env F e).2 = a ∨
          (CuckooFilter.firstPass env F e).2 = CuckooFilter.indexComplement env F a f)
    then 1 else 0)).sum

/-! ## A small filter for concrete runs -/

/-- A hash function on numbers (`hash x = x`, `fingerprint x = 7 x + 3`), a kick budget of 5 and
the multiplicative hash of a fingerprint. -/
def sampleEnv : FilterEnv Nat :=
  ⟨⟨fun x => x, fun x => x * 7 + 3⟩, 5, fun fp => fp * 0x5bd1e995⟩

/-- The filter that `CuckooFilter.new FpType.uint8_t 2 8 4` builds: two buckets of four 8-bit
slots. -/
def sampleFresh : CuckooFilter :=
  { table := ⟨2, 255, ⟨8, 4⟩, [0, 0]⟩
    fp_mask := 255
    element_count := 0
    capacity := 7
    is_full := false
    is_empty := true
    victim := ⟨0, 0⟩ }

/-- The insertions of the elements `0, .., n - 1`; element `x` draws `k + x` in round `k`. -/
def sampleOps (n : Nat) : List (Nat × (Nat → Nat)) :=
  (List.range n).map (fun x => (x, fun k => k + x))

/-- The sample filter after the insertions of `0, .., 7`, which fill its eight slots, and the
failed insertion of element 8: it holds the victim `(1, 10)`. -/
def sampleWithVictim : CuckooFilter :=
  (CuckooFilter.insertElement sampleEnv
    (CuckooFilter.insertElements sampleEnv sampleFresh (sampleOps 8)).1 8 (fun k => k + 8)).1

/-! ## Occupancy and runs of calls -/

/-- Number of nonzero slots of the whole table: `fingerprintCount` summed over the buckets. -/
def CuckooTable.occupied (t : CuckooTable) : Nat :=
  ((List.range t.table_size).map (fun i => t.fingerprintCount i)).sum

/-- A call of `insertElement` or `deleteElement`, with the draws that serve it. -/
inductive FilterCall (α : Type) where
  | insertElement (element : α) (draws : Nat → Nat)
  | deleteElement (element : α) (draws : Nat → Nat)

/-- The filter after one call; the returned flag is dropped. -/
def CuckooFilter.call {α : Type} (env : FilterEnv α) (F : CuckooFilter) :
    FilterCall α → CuckooFilter
  | FilterCall.insertElement element draws => (CuckooFilter.insertElement env F element draws).1
  | FilterCall.deleteElement element draws => (CuckooFilter.deleteElement env F element draws).1

/-- The filter after a sequence of calls, successful or failed. -/
def CuckooFilter.run {α : Type} (env : FilterEnv α) :
    CuckooFilter → List (FilterCall α) → CuckooFilter
  | F, [] => F
  | F, c :: cs => CuckooFilter.run env (CuckooFilter.call env F c) cs

/-- Whether a call is a `deleteElement` whose `deleteFingerprint` attempts remove a fingerprint
from the table (the variable `deletion` of `deleteElement` is true). -/
def CuckooFilter.removesFromTable {α : Type} (env : FilterEnv α) (F : CuckooFilter) :
    FilterCall α → Bool
  | FilterCall.insertElement _ _ => false
  | FilterCall.deleteElement element _ =>
    (CuckooFilter.deleteEither F.table (CuckooFilter.firstPass env F element).1
      (CuckooFilter.firstPass env F element).2
      (CuckooFilter.indexComplement env F (CuckooFilter.firstPass env F element).2
        (CuckooFilter.firstPass env F element).1)).2

/-- Whether no call of a sequence removes a fingerprint from the table. -/
def CuckooFilter.removesNone {α : Type} (env : FilterEnv α) :
    CuckooFilter → List (FilterCall α) → Bool
  | _, [] => true
  | F, c :: cs =>
    !(CuckooFilter.removesFromTable env F c) &&
      CuckooFilter.removesNone env (CuckooFilter.call env F c) cs

/-- The calls `insertElement(0), .., insertElement(n - 1)` with the draws of `sampleOps`. -/
def sampleCalls (n : Nat) : List (FilterCall Nat) :=
  (sampleOps n).map (fun op => FilterCall.insertElement op.1 op.2)

/-- A sequence of public calls on the sample filter: eight insertions fill both buckets, four
deletions empty bucket 0, the insertion of element 9 fails and leaves a victim, and the deletion
of element 3 frees a slot that the victim takes. -/
def sampleWrapCalls : List (FilterCall Nat) :=
  [FilterCall.insertElement 1 (fun k => k), FilterCall.insertElement 3 (fun k => k),
    FilterCall.insertElement 5 (fun k => k), FilterCall.insertElement 7 (fun k => k),
    FilterCall.insertElement 0 (fun k => k), FilterCall.insertElement 2 (fun k => k),
    FilterCall.insertElement 4 (fun k => k), FilterCall.insertElement 6 (fun k => k),
    FilterCall.deleteElement 0 (fun k => k), FilterCall.deleteElement 2 (fun k => k),
    FilterCall.deleteElement 4 (fun k => k), FilterCall.deleteElement 6 (fun k => k),
    FilterCall.insertElement 9 (fun k => k + 8), FilterCall.deleteElement 3 (fun k => k)]

/-! ## Codec laws -/

theorem BitManager.testBit_read (bm : BitManager) (j w i : Nat) :
    (bm.read j w).testBit i = (decide (i < bm.bits_per_fp) && w.testBit (j * bm.bits_per_fp + i)) := by
  unfold BitManager.read
  rw [Nat.testBit_mod_two_pow, Nat.testBit_shiftRight]

theorem BitManager.testBit_write (bm : BitManager) (j w v n : Nat) :
    (bm.write j w v).testBit n =
      if j * bm.bits_per_fp ≤ n ∧ n - j * bm.bits_per_fp < bm.bits_per_fp then
        v.testBit (n - j * bm.bits_per_fp)
      else w.testBit n := by
  unfold BitManager.write
  rw [Nat.testBit_or, Nat.testBit_xor, Nat.testBit_and, Nat.testBit_shiftLeft,
    Nat.testBit_shiftLeft, Nat.testBit_two_pow_sub_one, Nat.testBit_mod_two_pow]
  by_cases h1 : j * bm.bits_per_fp ≤ n <;> by_cases h2 : n - j * bm.bits_per_fp < bm.bits_per_fp <;>
    simp [h1, h2]

theorem BitManager.read_lt (bm : BitManager) (j w : Nat) : bm.read j w < 2 ^ bm.bits_per_fp := by
  unfold BitManager.read
  exact Nat.mod_lt _ (Nat.two_pow_pos _)

theorem BitManager.read_write_same (bm : BitManager) (j w v : Nat) :
    bm.read j (bm.write j w v) = v % 2 ^ bm.bits_per_fp := by
  apply Nat.eq_of_testBit_eq
  intro i
  rw [BitManager.testBit_read, BitManager.testBit_write, Nat.testBit_mod_two_pow]
  by_cases h : i < bm.bits_per_fp
  · have h1 : j * bm.bits_per_fp ≤ j * bm.bits_per_fp + i := Nat.le_add_right _ _
    have h2 : j * bm.bits_per_fp + i - j * bm.bits_per_fp = i := by omega
    simp [h, h2]
  · simp [h]

theorem BitManager.read_write_other (bm : BitManager) (j j' w v : Nat) (h : j ≠ j') :
    bm.read j' (bm.write j w v) = bm.read j' w := by
  apply Nat.eq_of_testBit_eq
  intro i
  rw [BitManager.testBit_read, BitManager.testBit_read, BitManager.testBit_write]
  by_cases hi : i < bm.bits_per_fp
  · have hno : ¬ (j * bm.bits_per_fp ≤ j' * bm.bits_per_fp + i ∧
        j' * bm.bits_per_fp + i - j * bm.bits_per_fp < bm.bits_per_fp) := by
      rintro ⟨h1, h2⟩
      rcases Nat.lt_or_gt_of_ne h with hlt | hgt
      · have : (j + 1) * bm.bits_per_fp ≤ j' * bm.bits_per_fp := Nat.mul_le_mul_right _ hlt
        rw [Nat.add_mul] at this
        omega
      · have : (j' + 1) * bm.bits_per_fp ≤ j * bm.bits_per_fp := Nat.mul_le_mul_right _ hgt
        rw [Nat.add_mul] at this
        omega
    rw [if_neg hno]
  · simp [hi]

theorem BitManager.read_zero (bm : BitManager) (j : Nat) : bm.read j 0 = 0 := by
  unfold BitManager.read
  simp

/-! ## Lists -/

theorem sum_map_range_update (g g' : Nat → Nat) (n i : Nat) (hi : i < n)
    (h : ∀ b, b ≠ i → g' b = g b) :
    ((List.range n).map g').sum + g i = ((List.range n).map g).sum + g' i := by
  induction n with
  | zero => omega
  | succ n ih =>
    rw [List.range_succ, List.map_append, List.map_append, List.sum_append, List.sum_append]
    simp only [List.map_cons, List.map_nil, List.sum_cons, List.sum_nil, Nat.add_zero]
    by_cases hin : i = n
    · subst hin
      have : (List.range i).map g' = (List.range i).map g := by
        apply List.map_congr_left
        intro b hb
        exact h b (Nat.ne_of_lt (List.mem_range.mp hb))
      rw [this]
      omega
    · have := ih (by omega)
      have := h n (fun hn => hin hn.symm)
      omega

theorem sum_map_range_congr (g g' : Nat → Nat) (n : Nat) (h : ∀ b, b < n → g' b = g b) :
    ((List.range n).map g').sum = ((List.range n).map g).sum := by
  congr 1
  apply List.map_congr_left
  intro b hb
  exact h b (List.mem_range.mp hb)

theorem sum_map_range_pos (g : Nat → Nat) (n : Nat) (h : 0 < ((List.range n).map g).sum) :
    ∃ b, b < n ∧ 0 < g b := by
  induction n with
  | zero => simp at h
  | succ n ih =>
    rw [List.range_succ, List.map_append, List.sum_append] at h
    simp only [List.map_cons, List.map_nil, List.sum_cons, List.sum_nil, Nat.add_zero] at h
    by_cases hn : 0 < g n
    · exact ⟨n, Nat.lt_succ_self n, hn⟩
    · obtain ⟨b, hb, hg⟩ := ih (by omega)
      exact ⟨b, Nat.lt_succ_of_lt hb, hg⟩

theorem sum_map_range_ge (g : Nat → Nat) (n b : Nat) (hb : b < n) :
    g b ≤ ((List.range n).map g).sum := by
  induction n with
  | zero => omega
  | succ n ih =>
    rw [List.range_succ, List.map_append, List.sum_append]
    simp only [List.map_cons, List.map_nil, List.sum_cons, List.sum_nil, Nat.add_zero]
    by_cases hn : b = n
    · subst hn; omega
    · have := ih (by omega)
      omega

/-! ## Slots of a table -/

theorem CuckooTable.getFingerprint_eq_read (t : CuckooTable) (h : t.WF) (i j : Nat) :
    t.getFingerprint i j = t.bit_manager.read j (t.buckets.getD i 0) := by
  unfold CuckooTable.getFingerprint
  rw [h.2.2.1, Nat.and_pow_two_sub_one_eq_mod]
  exact Nat.mod_eq_of_lt (BitManager.read_lt _ _ _)

theorem CuckooTable.getFingerprint_lt (t : CuckooTable) (h : t.WF) (i j : Nat) :
    t.getFingerprint i j < 2 ^ t.bit_manager.bits_per_fp := by
  rw [CuckooTable.getFingerprint_eq_read t h]
  exact BitManager.read_lt _ _ _

theorem CuckooTable.insertFingerprint_WF (t : CuckooTable) (h : t.WF) (i j v : Nat) :
    (t.insertFingerprint i j v).WF := by
  obtain ⟨h1, h2, h3, h4, h5, h6⟩ := h
  refine ⟨h1, ?_, h3, h4, h5, h6⟩
  simp [CuckooTable.insertFingerprint, h2]

theorem CuckooTable.getFingerprint_insertFingerprint_same (t : CuckooTable) (h : t.WF)
    (i j v : Nat) (hi : i < t.table_size) :
    (t.insertFingerprint i j v).getFingerprint i j = v % 2 ^ t.bit_manager.bits_per_fp := by
  rw [CuckooTable.getFingerprint_eq_read _ (CuckooTable.insertFingerprint_WF t h i j v)]
  have hlen : i < t.buckets.length := by rw [h.2.1]; exact hi
  simp only [CuckooTable.insertFingerprint, List.getD_eq_getElem?_getD, List.getElem?_set,
    if_true, hlen, Option.getD_some]
  rw [BitManager.read_write_same, h.2.2.1, Nat.and_pow_two_sub_one_eq_mod, Nat.mod_mod]

theorem CuckooTable.getFingerprint_insertFingerprint_other (t : CuckooTable) (h : t.WF)
    (i j v i' j' : Nat) (hne : i' ≠ i ∨ j' ≠ j) :
    (t.insertFingerprint i j v).getFingerprint i' j' = t.getFingerprint i' j' := by
  rw [CuckooTable.getFingerprint_eq_read _ (CuckooTable.insertFingerprint_WF t h i j v),
    CuckooTable.getFingerprint_eq_read _ h]
  by_cases hii : i' = i
  · subst hii
    have hj : j ≠ j' := fun e => by
      rcases hne with h1 | h1
      · exact h1 rfl
      · exact h1 e.symm
    by_cases hlen : i' < t.buckets.length
    · simp only [CuckooTable.insertFingerprint, List.getD_eq_getElem?_getD, List.getElem?_set,
        if_true, hlen, Option.getD_some]
      rw [BitManager.read_write_other _ _ _ _ _ hj]
    · simp only [CuckooTable.insertFingerprint, List.getD_eq_getElem?_getD, List.getElem?_set,
        if_true, hlen, if_false]
      simp [List.getElem?_eq_none (Nat.le_of_not_lt hlen)]
  · have : i ≠ i' := fun e => hii e.symm
    simp only [CuckooTable.insertFingerprint, List.getD_eq_getElem?_getD, List.getElem?_set,
      this, if_false]

theorem CuckooTable.slotCount_insertFingerprint_other (t : CuckooTable) (h : t.WF)
    (i j v b f : Nat) (hb : b ≠ i) :
    (t.insertFingerprint i j v).slotCount b f = t.slotCount b f := by
  unfold CuckooTable.slotCount
  apply sum_map_range_congr
  intro x _
  rw [CuckooTable.getFingerprint_insertFingerprint_other t h i j v b x (Or.inl hb)]

theorem CuckooTable.slotCount_insertFingerprint_same (t : CuckooTable) (h : t.WF)
    (i j v f : Nat) (hi : i < t.table_size) (hj : j < t.bit_manager.entries_per_bucket) :
    (t.insertFingerprint i j v).slotCount i f + (if t.getFingerprint i j = f then 1 else 0) =
      t.slotCount i f + (if v % 2 ^ t.bit_manager.bits_per_fp = f then 1 else 0) := by
  unfold CuckooTable.slotCount
  have := sum_map_range_update (fun x => if t.getFingerprint i x = f then 1 else 0)
    (fun x => if (t.insertFingerprint i j v).getFingerprint i x = f then 1 else 0)
    t.bit_manager.entries_per_bucket j hj (by
      intro x hx
      simp only []
      rw [CuckooTable.getFingerprint_insertFingerprint_other t h i j v i x (Or.inr hx)])
  simp only [] at this
  rw [CuckooTable.getFingerprint_insertFingerprint_same t h i j v hi] at this
  exact this

/-! ## Bucket indices -/

theorem CuckooFilter.getIndex_eq_mod (F : CuckooFilter) (k : Nat) (hk : k ≤ 32)
    (hts : F.table.table_size = 2 ^ k) (hv : Nat) : F.getIndex hv = hv % 2 ^ k := by
  unfold CuckooFilter.getIndex CuckooTable.getTableSize
  rw [hts]
  have hpos : 0 < 2 ^ k := Nat.two_pow_pos k
  have hle : 2 ^ k ≤ 2 ^ 32 := Nat.pow_le_pow_right (by decide) hk
  have h1 : (2 ^ k + 2 ^ 64 - 1) % 2 ^ 64 = 2 ^ k - 1 := by
    have : 2 ^ k + 2 ^ 64 - 1 = (2 ^ k - 1) + 2 ^ 64 := by omega
    rw [this, Nat.add_mod_right]
    apply Nat.mod_eq_of_lt
    have : (2:Nat) ^ 32 < 2 ^ 64 := by decide
    omega
  rw [h1, Nat.and_pow_two_sub_one_eq_mod]

theorem CuckooFilter.getIndex_lt (F : CuckooFilter) (h : F.table.WF) (hv : Nat) :
    F.getIndex hv < F.table.table_size := by
  obtain ⟨k, hk, hts⟩ := h.1
  rw [CuckooFilter.getIndex_eq_mod F k hk hts, hts]
  exact Nat.mod_lt _ (Nat.two_pow_pos k)

theorem CuckooFilter.indexComplement_eq {α : Type} (env : FilterEnv α) (F : CuckooFilter)
    (k : Nat) (hk : k ≤ 32) (hts : F.table.table_size = 2 ^ k) (i fp : Nat) :
    CuckooFilter.indexComplement env F i fp = (i ^^^ env.fp_hash fp) % 2 ^ k := by
  unfold CuckooFilter.indexComplement CuckooFilter.fingerprintComplement
  rw [CuckooFilter.getIndex_eq_mod F k hk hts]
  have hle : 2 ^ k ≤ 2 ^ 32 := Nat.pow_le_pow_right (by decide) hk
  have hdvd : 2 ^ k ∣ 2 ^ 32 := Nat.pow_dvd_pow 2 hk
  rw [Nat.mod_mod_of_dvd _ hdvd]
  apply Nat.mod_eq_of_lt
  exact Nat.lt_of_lt_of_le (Nat.mod_lt _ (Nat.two_pow_pos k)) hle

theorem xor_mod_two_pow_involutive (i h k : Nat) (hi : i < 2 ^ k) :
    (((i ^^^ h) % 2 ^ k) ^^^ h) % 2 ^ k = i := by
  apply Nat.eq_of_testBit_eq
  intro n
  rw [Nat.testBit_mod_two_pow, Nat.testBit_xor, Nat.testBit_mod_two_pow, Nat.testBit_xor]
  by_cases hn : n < k
  · simp [hn]
  · have : i.testBit n = false := by
      apply Nat.testBit_lt_two_pow
      exact Nat.lt_of_lt_of_le hi (Nat.pow_le_pow_right (by decide) (Nat.le_of_not_lt hn))
    simp [hn, this]

theorem CuckooFilter.indexComplement_lt {α : Type} (env : FilterEnv α) (F : CuckooFilter)
    (h : F.table.WF) (i fp : Nat) :
    CuckooFilter.indexComplement env F i fp < F.table.table_size := by
  obtain ⟨k, hk, hts⟩ := h.1
  rw [CuckooFilter.indexComplement_eq env F k hk hts, hts]
  exact Nat.mod_lt _ (Nat.two_pow_pos k)

theorem CuckooFilter.indexComplement_indexComplement {α : Type} (env : FilterEnv α)
    (F : CuckooFilter) (h : F.table.WF) (i fp : Nat) (hi : i < F.table.table_size) :
    CuckooFilter.indexComplement env F (CuckooFilter.indexComplement env F i fp) fp = i := by
  obtain ⟨k, hk, hts⟩ := h.1
  rw [CuckooFilter.indexComplement_eq env F k hk hts, CuckooFilter.indexComplement_eq env F k hk hts]
  exact xor_mod_two_pow_involutive i _ k (by rw [← hts]; exact hi)

/-- Membership in the pair of `a` under `f` is the same for a bucket and for its complement. -/
theorem CuckooFilter.inPair_indexComplement {α : Type} (env : FilterEnv α) (F : CuckooFilter)
    (h : F.table.WF) (f a i : Nat) (ha : a < F.table.table_size) (hi : i < F.table.table_size) :
    (CuckooFilter.indexComplement env F i f = a ∨
      CuckooFilter.indexComplement env F i f = CuckooFilter.indexComplement env F a f) ↔
    (i = a ∨ i = CuckooFilter.indexComplement env F a f) := by
  constructor
  · rintro (h1 | h1)
    · right
      rw [← h1, CuckooFilter.indexComplement_indexComplement env F h i f hi]
    · left
      have := congrArg (fun x => CuckooFilter.indexComplement env F x f) h1
      simp only [] at this
      rwa [CuckooFilter.indexComplement_indexComplement env F h i f hi,
        CuckooFilter.indexComplement_indexComplement env F h a f ha] at this
  · rintro (h1 | h1)
    · right; rw [h1]
    · left; rw [h1, CuckooFilter.indexComplement_indexComplement env F h a f ha]

/-! ## The pair count under a slot write -/

theorem CuckooFilter.pairCount_insertFingerprint {α : Type} (env : FilterEnv α)
    (F : CuckooFilter) (t : CuckooTable) (h : t.WF) (i j v f a : Nat) (hi : i < t.table_size)
    (hj : j < t.bit_manager.entries_per_bucket) :
    CuckooFilter.pairCount env F (t.insertFingerprint i j v) f a +
        (if (i = a ∨ i = CuckooFilter.indexComplement env F a f) ∧ t.getFingerprint i j = f
          then 1 else 0) =
      CuckooFilter.pairCount env F t f a +
        (if (i = a ∨ i = CuckooFilter.indexComplement env F a f) ∧
            v % 2 ^ t.bit_manager.bits_per_fp = f then 1 else 0) := by
  unfold CuckooFilter.pairCount
  have hsz : (t.insertFingerprint i j v).table_size = t.table_size := rfl
  rw [hsz]
  have key := sum_map_range_update
    (fun b => if b = a ∨ b = CuckooFilter.indexComplement env F a f then t.slotCount b f else 0)
    (fun b => if b = a ∨ b = CuckooFilter.indexComplement env F a f
      then (t.insertFingerprint i j v).slotCount b f else 0)
    t.table_size i hi (by
      intro b hb
      simp only []
      rw [CuckooTable.slotCount_insertFingerprint_other t h i j v b f hb])
  simp only [] at key
  have hs := CuckooTable.slotCount_insertFingerprint_same t h i j v f hi hj
  by_cases hp : i = a ∨ i = CuckooFilter.indexComplement env F a f
  · simp only [hp, if_true, true_and] at key ⊢
    omega
  · simp only [hp, if_false, false_and] at key ⊢
    omega

/-! ## The first slot of a bucket that satisfies a test -/

theorem find_range_none (p : Nat → Bool) (n : Nat) (h : (List.range n).find? p = none) :
    ∀ j, j < n → p j = false := by
  intro j hj
  have := List.find?_eq_none.mp h j (List.mem_range.mpr hj)
  simpa using this

theorem find_range_some (p : Nat → Bool) (n j : Nat) (h : (List.range n).find? p = some j) :
    j < n ∧ p j = true ∧ ∀ j', j' < j → p j' = false := by
  induction n with
  | zero => simp at h
  | succ n ih =>
    rw [List.range_succ, List.find?_append] at h
    cases hf : (List.range n).find? p with
    | some x =>
      rw [hf] at h
      simp only [Option.or_some, Option.some.injEq] at h
      subst h
      obtain ⟨h1, h2, h3⟩ := ih hf
      exact ⟨Nat.lt_succ_of_lt h1, h2, h3⟩
    | none =>
      rw [hf] at h
      simp only [Option.none_or] at h
      have hpn : p n = true := by
        by_contra hc
        simp [List.find?, hc] at h
      simp only [List.find?, hpn, Option.some.injEq] at h
      subst h
      exact ⟨Nat.lt_succ_self _, hpn, fun j' hj' => find_range_none p _ hf j' hj'⟩

/-! ## `replacingFingerprintInsertion` and `deleteFingerprint` by cases -/

theorem CuckooTable.replacingFingerprintInsertion_cases (t : CuckooTable) (i fp : Nat)
    (eject : Bool) (prev_fp r : Nat) :
    (∃ j, j < t.bit_manager.entries_per_bucket ∧ t.getFingerprint i j = 0 ∧
        (∀ j', j' < j → t.getFingerprint i j' ≠ 0) ∧
        t.replacingFingerprintInsertion i fp eject prev_fp r =
          (t.insertFingerprint i j fp, true, prev_fp)) ∨
    ((∀ j, j < t.bit_manager.entries_per_bucket → t.getFingerprint i j ≠ 0) ∧
        t.replacingFingerprintInsertion i fp eject prev_fp r =
          if eject then
            (t.insertFingerprint i (r % t.bit_manager.entries_per_bucket) fp, false,
              t.getFingerprint i (r % t.bit_manager.entries_per_bucket))
          else (t, false, prev_fp)) := by
  unfold CuckooTable.replacingFingerprintInsertion CuckooTable.entries_per_bucket
  cases hf : (List.range t.bit_manager.entries_per_bucket).find?
      (fun j => t.getFingerprint i j == 0) with
  | some j =>
    left
    obtain ⟨h1, h2, h3⟩ := find_range_some _ _ _ hf
    refine ⟨j, h1, by simpa using h2, ?_, rfl⟩
    intro j' hj'
    simpa using h3 j' hj'
  | none =>
    right
    refine ⟨?_, rfl⟩
    intro j hj
    simpa using find_range_none _ _ hf j hj

theorem CuckooTable.deleteFingerprint_cases (t : CuckooTable) (fp i : Nat) :
    (∃ j, j < t.bit_manager.entries_per_bucket ∧ t.getFingerprint i j = fp ∧
        (∀ j', j' < j → t.getFingerprint i j' ≠ fp) ∧
        t.deleteFingerprint fp i = (t.insertFingerprint i j 0, true)) ∨
    ((∀ j, j < t.bit_manager.entries_per_bucket → t.getFingerprint i j ≠ fp) ∧
        t.deleteFingerprint fp i = (t, false)) := by
  unfold CuckooTable.deleteFingerprint CuckooTable.entries_per_bucket
  cases hf : (List.range t.bit_manager.entries_per_bucket).find?
      (fun j => t.getFingerprint i j == fp) with
  | some j =>
    left
    obtain ⟨h1, h2, h3⟩ := find_range_some _ _ _ hf
    refine ⟨j, h1, by simpa using h2, ?_, rfl⟩
    intro j' hj'
    simpa using h3 j' hj'
  | none =>
    right
    refine ⟨?_, rfl⟩
    intro j hj
    simpa using find_range_none _ _ hf j hj

/-! ## One round of the kick loop -/

theorem CuckooTable.replacingFingerprintInsertion_shape (t : CuckooTable) (h : t.WF)
    (i fp : Nat) (eject : Bool) (prev_fp r : Nat) :
    (t.replacingFingerprintInsertion i fp eject prev_fp r).1.WF ∧
      (t.replacingFingerprintInsertion i fp eject prev_fp r).1.table_size = t.table_size ∧
      (t.replacingFingerprintInsertion i fp eject prev_fp r).1.bit_manager = t.bit_manager := by
  rcases CuckooTable.replacingFingerprintInsertion_cases t i fp eject prev_fp r with
    ⟨j, _, _, _, he⟩ | ⟨_, he⟩
  · rw [he]
    exact ⟨CuckooTable.insertFingerprint_WF t h i j fp, rfl, rfl⟩
  · rw [he]
    cases eject
    · exact ⟨h, rfl, rfl⟩
    · exact ⟨CuckooTable.insertFingerprint_WF t h i _ fp, rfl, rfl⟩

theorem CuckooFilter.pairCount_placed {α : Type} (env : FilterEnv α) (F : CuckooFilter)
    (t : CuckooTable) (h : t.WF) (ci cf : Nat) (eject : Bool) (r f a : Nat)
    (hci : ci < t.table_size) (hcf : cf < 2 ^ t.bit_manager.bits_per_fp) (hf : f ≠ 0)
    (hp : (t.replacingFingerprintInsertion ci cf eject 0 r).2.1 = true) :
    CuckooFilter.pairCount env F (t.replacingFingerprintInsertion ci cf eject 0 r).1 f a =
      CuckooFilter.pairCount env F t f a +
        (if cf = f ∧ (ci = a ∨ ci = CuckooFilter.indexComplement env F a f) then 1 else 0) := by
  rcases CuckooTable.replacingFingerprintInsertion_cases t ci cf eject 0 r with
    ⟨j, hj, h0, _, he⟩ | ⟨_, he⟩
  · rw [he]
    have key := CuckooFilter.pairCount_insertFingerprint env F t h ci j cf f a hci hj
    rw [h0, Nat.mod_eq_of_lt hcf] at key
    have hz : ¬ ((ci = a ∨ ci = CuckooFilter.indexComplement env F a f) ∧ 0 = f) :=
      fun hx => hf hx.2.symm
    rw [if_neg hz] at key
    simp only [and_comm (a := cf = f)]
    simpa using key
  · rw [he] at hp
    cases eject <;> simp at hp

theorem CuckooFilter.pairCount_kicked {α : Type} (env : FilterEnv α) (F : CuckooFilter)
    (hF : F.table.WF) (t : CuckooTable) (h : t.WF) (hsz : t.table_size = F.table.table_size)
    (ci cf : Nat) (eject : Bool) (r f a : Nat)
    (hci : ci < t.table_size) (hcf0 : cf ≠ 0) (hcf : cf < 2 ^ t.bit_manager.bits_per_fp)
    (ha : a < t.table_size)
    (hp : (t.replacingFingerprintInsertion ci cf eject 0 r).2.1 = false) :
    (if eject then (t.replacingFingerprintInsertion ci cf eject 0 r).2.2 else cf) ≠ 0 ∧
    (if eject then (t.replacingFingerprintInsertion ci cf eject 0 r).2.2 else cf) <
      2 ^ t.bit_manager.bits_per_fp ∧
    CuckooFilter.pairCount env F (t.replacingFingerprintInsertion ci cf eject 0 r).1 f a +
        (if (if eject then (t.replacingFingerprintInsertion ci cf eject 0 r).2.2 else cf) = f ∧
          (CuckooFilter.indexComplement env F ci
              (if eject then (t.replacingFingerprintInsertion ci cf eject 0 r).2.2 else cf) = a ∨
            CuckooFilter.indexComplement env F ci
              (if eject then (t.replacingFingerprintInsertion ci cf eject 0 r).2.2 else cf) =
              CuckooFilter.indexComplement env F a f) then 1 else 0) =
      CuckooFilter.pairCount env F t f a +
        (if cf = f ∧ (ci = a ∨ ci = CuckooFilter.indexComplement env F a f) then 1 else 0) := by
  rw [hsz] at hci ha
  rcases CuckooTable.replacingFingerprintInsertion_cases t ci cf eject 0 r with
    ⟨j, _, _, _, he⟩ | ⟨hfull, he⟩
  · rw [he] at hp
    simp at hp
  · rw [he]
    cases eject
    · simp only [Bool.false_eq_true, if_false]
      refine ⟨hcf0, hcf, ?_⟩
      by_cases hcff : cf = f
      · subst hcff
        have := CuckooFilter.inPair_indexComplement env F hF cf a ci ha hci
        simp only [true_and, this]
      · simp [hcff]
    · simp only [if_true]
      have hpos : 0 < t.bit_manager.entries_per_bucket := h.2.2.2.2.2
      have hnext : r % t.bit_manager.entries_per_bucket < t.bit_manager.entries_per_bucket :=
        Nat.mod_lt _ hpos
      refine ⟨hfull _ hnext, CuckooTable.getFingerprint_lt t h _ _, ?_⟩
      have key := CuckooFilter.pairCount_insertFingerprint env F t h ci
        (r % t.bit_manager.entries_per_bucket) cf f a (by rw [hsz]; exact hci) hnext
      rw [Nat.mod_eq_of_lt hcf] at key
      by_cases hold : t.getFingerprint ci (r % t.bit_manager.entries_per_bucket) = f
      · have := CuckooFilter.inPair_indexComplement env F hF f a ci ha hci
        rw [hold] at key ⊢
        simp only [true_and, and_true, this] at key ⊢
        rw [key]
        simp only [and_comm (a := cf = f)]
      · simp only [hold, and_false, false_and, if_false, Nat.add_zero] at key ⊢
        rw [key]
        simp only [and_comm (a := cf = f)]

/-! ## The kick loop -/

theorem CuckooFilter.insertLoop_spec {α : Type} (env : FilterEnv α) (F : CuckooFilter)
    (hF : F.table.WF) (draws : Nat → Nat) :
    ∀ (remaining kicks : Nat) (t : CuckooTable) (ci cf : Nat),
      t.WF → t.table_size = F.table.table_size → t.bit_manager = F.table.bit_manager →
      ci < F.table.table_size → cf ≠ 0 → cf < 2 ^ F.table.bit_manager.bits_per_fp →
      (CuckooFilter.insertLoop env F draws remaining kicks t ci cf).table.WF ∧
      (CuckooFilter.insertLoop env F draws remaining kicks t ci cf).table.table_size =
        F.table.table_size ∧
      (CuckooFilter.insertLoop env F draws remaining kicks t ci cf).table.bit_manager =
        F.table.bit_manager ∧
      (CuckooFilter.insertLoop env F draws remaining kicks t ci cf).curr_index <
        F.table.table_size ∧
      (CuckooFilter.insertLoop env F draws remaining kicks t ci cf).curr_fp ≠ 0 ∧
      (CuckooFilter.insertLoop env F draws remaining kicks t ci cf).curr_fp <
        2 ^ F.table.bit_manager.bits_per_fp ∧
      ∀ f a, f ≠ 0 → a < F.table.table_size →
        CuckooFilter.pairCount env F
            (CuckooFilter.insertLoop env F draws remaining kicks t ci cf).table f a +
          (if (CuckooFilter.insertLoop env F draws remaining kicks t ci cf).placed = false ∧
              (CuckooFilter.insertLoop env F draws remaining kicks t ci cf).curr_fp = f ∧
              ((CuckooFilter.insertLoop env F draws remaining kicks t ci cf).curr_index = a ∨
                (CuckooFilter.insertLoop env F draws remaining kicks t ci cf).curr_index =
                  CuckooFilter.indexComplement env F a f) then 1 else 0) =
        CuckooFilter.pairCount env F t f a +
          (if cf = f ∧ (ci = a ∨ ci = CuckooFilter.indexComplement env F a f) then 1 else 0) := by
  intro remaining
  induction remaining with
  | zero =>
    intro kicks t ci cf ht hsz hbm hci hcf0 hcf
    simp only [CuckooFilter.insertLoop]
    exact ⟨ht, hsz, hbm, hci, hcf0, hcf, fun f a _ _ => by simp⟩
  | succ n ih =>
    intro kicks t ci cf ht hsz hbm hci hcf0 hcf
    obtain ⟨hs1, hs2, hs3⟩ :=
      CuckooTable.replacingFingerprintInsertion_shape t ht ci cf (kicks != 0) 0 (draws kicks)
    by_cases hp : (t.replacingFingerprintInsertion ci cf (kicks != 0) 0 (draws kicks)).2.1 = true
    · simp only [CuckooFilter.insertLoop, hp, if_true]
      refine ⟨hs1, hs2.trans hsz, hs3.trans hbm, hci, hcf0, hcf, ?_⟩
      intro f a hf _
      have := CuckooFilter.pairCount_placed env F t ht ci cf (kicks != 0) (draws kicks) f a
        (by rw [hsz]; exact hci) (by rw [hbm]; exact hcf) hf hp
      simp only [Bool.true_eq_false, false_and, if_false, Nat.add_zero]
      exact this
    · have hp' : (t.replacingFingerprintInsertion ci cf (kicks != 0) 0 (draws kicks)).2.1 = false := by
        simpa using hp
      have hk := fun f a (ha : a < F.table.table_size) =>
        CuckooFilter.pairCount_kicked env F hF t ht hsz ci cf (kicks != 0) (draws kicks) f a
          (by rw [hsz]; exact hci) hcf0 (by rw [hbm]; exact hcf) (by rw [hsz]; exact ha) hp'
      obtain ⟨hn0, hnlt, _⟩ := hk 1 0 (by
        obtain ⟨k, _, hk2⟩ := hF.1
        rw [hk2]; exact Nat.two_pow_pos k)
      have hrec := ih (kicks + 1)
        (t.replacingFingerprintInsertion ci cf (kicks != 0) 0 (draws kicks)).1
        (CuckooFilter.indexComplement env F ci
          (if (kicks != 0) = true then
            (t.replacingFingerprintInsertion ci cf (kicks != 0) 0 (draws kicks)).2.2
           else cf))
        (if (kicks != 0) = true then
          (t.replacingFingerprintInsertion ci cf (kicks != 0) 0 (draws kicks)).2.2
         else cf)
        hs1 (hs2.trans hsz) (hs3.trans hbm)
        (CuckooFilter.indexComplement_lt env F hF _ _) hn0 (by rw [← hbm]; exact hnlt)
      simp only [CuckooFilter.insertLoop, hp', Bool.false_eq_true, if_false]
      obtain ⟨r1, r2, r3, r4, r5, r6, r7⟩ := hrec
      refine ⟨r1, r2, r3, r4, r5, r6, ?_⟩
      intro f a hf ha
      rw [r7 f a hf ha]
      exact (hk f a ha).2.2

/-! ## Operations depend on a filter only through its configuration -/

theorem CuckooFilter.indexComplement_congr {α : Type} (env : FilterEnv α) (F F' : CuckooFilter)
    (hsz : F'.table.table_size = F.table.table_size) (i fp : Nat) :
    CuckooFilter.indexComplement env F' i fp = CuckooFilter.indexComplement env F i fp := by
  simp only [CuckooFilter.indexComplement, CuckooFilter.getIndex, CuckooTable.getTableSize, hsz]

theorem CuckooFilter.firstPass_congr {α : Type} (env : FilterEnv α) (F F' : CuckooFilter)
    (hsz : F'.table.table_size = F.table.table_size) (hm : F'.fp_mask = F.fp_mask) (e : α) :
    CuckooFilter.firstPass env F' e = CuckooFilter.firstPass env F e := by
  simp only [CuckooFilter.firstPass, CuckooFilter.fingerprint, CuckooFilter.getIndex,
    CuckooTable.getTableSize, hsz, hm]

theorem CuckooFilter.pairCount_congr {α : Type} (env : FilterEnv α) (F F' : CuckooFilter)
    (hsz : F'.table.table_size = F.table.table_size) (t : CuckooTable) (f a : Nat) :
    CuckooFilter.pairCount env F' t f a = CuckooFilter.pairCount env F t f a := by
  simp only [CuckooFilter.pairCount, CuckooFilter.indexComplement_congr env F F' hsz]

theorem CuckooFilter.memberCount_congr {α : Type} (env : FilterEnv α) (F F' : CuckooFilter)
    (hsz : F'.table.table_size = F.table.table_size) (hm : F'.fp_mask = F.fp_mask)
    (l : List α) (f a : Nat) :
    CuckooFilter.memberCount env F' l f a = CuckooFilter.memberCount env F l f a := by
  simp only [CuckooFilter.memberCount, CuckooFilter.indexComplement_congr env F F' hsz,
    CuckooFilter.firstPass_congr env F F' hsz hm]

theorem CuckooFilter.insertLoop_congr {α : Type} (env : FilterEnv α) (F F' : CuckooFilter)
    (hsz : F'.table.table_size = F.table.table_size) (draws : Nat → Nat) :
    ∀ (remaining kicks : Nat) (t : CuckooTable) (ci cf : Nat),
      CuckooFilter.insertLoop env F' draws remaining kicks t ci cf =
        CuckooFilter.insertLoop env F draws remaining kicks t ci cf := by
  intro remaining
  induction remaining with
  | zero => intro kicks t ci cf; rfl
  | succ n ih =>
    intro kicks t ci cf
    simp only [CuckooFilter.insertLoop, ih, CuckooFilter.indexComplement_congr env F F' hsz]

/-! ## The first pass -/

theorem CuckooFilter.fingerprint_ne_zero_lt (F : CuckooFilter) (h : F.WF) (hv : Nat) :
    F.fingerprint hv ≠ 0 ∧ F.fingerprint hv < 2 ^ F.table.bit_manager.bits_per_fp := by
  obtain ⟨⟨_, _, hmask, hb1, hb32, _⟩, hfm⟩ := h
  unfold CuckooFilter.fingerprint
  rw [hfm, hmask, Nat.and_pow_two_sub_one_eq_mod]
  have hlt : hv % 2 ^ F.table.bit_manager.bits_per_fp < 2 ^ F.table.bit_manager.bits_per_fp :=
    Nat.mod_lt _ (Nat.two_pow_pos _)
  have hle : 2 ^ F.table.bit_manager.bits_per_fp ≤ 2 ^ 32 := Nat.pow_le_pow_right (by decide) hb32
  have h2 : 2 ^ 1 ≤ 2 ^ F.table.bit_manager.bits_per_fp := Nat.pow_le_pow_right (by decide) hb1
  by_cases hz : hv % 2 ^ F.table.bit_manager.bits_per_fp = 0
  · rw [hz]
    simp only [if_true, Nat.zero_add]
    have : (1 : Nat) % 2 ^ 32 = 1 := by decide
    rw [this]
    omega
  · simp only [hz, if_false, Nat.add_zero]
    rw [Nat.mod_eq_of_lt (by omega)]
    exact ⟨hz, hlt⟩

theorem CuckooFilter.firstPass_spec {α : Type} (env : FilterEnv α) (F : CuckooFilter)
    (h : F.WF) (e : α) :
    (CuckooFilter.firstPass env F e).1 ≠ 0 ∧
      (CuckooFilter.firstPass env F e).1 < 2 ^ F.table.bit_manager.bits_per_fp ∧
      (CuckooFilter.firstPass env F e).2 < F.table.table_size := by
  have := CuckooFilter.fingerprint_ne_zero_lt F h (env.hash_function.fingerprint e % 2 ^ 32)
  exact ⟨this.1, this.2, CuckooFilter.getIndex_lt F h.1 _⟩

/-! ## `insert` -/

theorem CuckooFilter.insert_spec {α : Type} (env : FilterEnv α) (F : CuckooFilter) (h : F.WF)
    (fp index : Nat) (draws : Nat → Nat) (hi : index < F.table.table_size) (hfp0 : fp ≠ 0)
    (hfp : fp < 2 ^ F.table.bit_manager.bits_per_fp) :
    (CuckooFilter.insert env F fp index draws).1.WF ∧
    (CuckooFilter.insert env F fp index draws).1.table.table_size = F.table.table_size ∧
    (CuckooFilter.insert env F fp index draws).1.table.bit_manager = F.table.bit_manager ∧
    (CuckooFilter.insert env F fp index draws).1.fp_mask = F.fp_mask ∧
    ((CuckooFilter.insert env F fp index draws).2 = true →
      (CuckooFilter.insert env F fp index draws).1.victim = F.victim) ∧
    ((CuckooFilter.insert env F fp index draws).2 = false →
      (CuckooFilter.insert env F fp index draws).1.victim.fp ≠ 0 ∧
      (CuckooFilter.insert env F fp index draws).1.victim.index < F.table.table_size) ∧
    ∀ f a, f ≠ 0 → a < F.table.table_size →
      CuckooFilter.pairCount env F (CuckooFilter.insert env F fp index draws).1.table f a +
        (if (CuckooFilter.insert env F fp index draws).2 = false ∧
            (CuckooFilter.insert env F fp index draws).1.victim.fp = f ∧
            ((CuckooFilter.insert env F fp index draws).1.victim.index = a ∨
              (CuckooFilter.insert env F fp index draws).1.victim.index =
                CuckooFilter.indexComplement env F a f) then 1 else 0) =
      CuckooFilter.pairCount env F F.table f a +
        (if fp = f ∧ (index = a ∨ index = CuckooFilter.indexComplement env F a f)
          then 1 else 0) := by
  obtain ⟨r1, r2, r3, r4, r5, r6, r7⟩ := CuckooFilter.insertLoop_spec env F h.1 draws
    env.KICKS_MAX_COUNT 0 F.table index fp h.1 rfl rfl hi hfp0 hfp
  have hmask : (CuckooFilter.insertLoop env F draws env.KICKS_MAX_COUNT 0 F.table index fp).table.fp_mask
      = F.table.fp_mask := by
    rw [r1.2.2.1, h.1.2.2.1, r3]
  by_cases hp : (CuckooFilter.insertLoop env F draws env.KICKS_MAX_COUNT 0 F.table index fp).placed
      = true
  · have hr7 := r7
    simp only [hp, Bool.true_eq_false, false_and, if_false, Nat.add_zero] at hr7
    simp only [CuckooFilter.insert, hp, if_true, CuckooFilter.refreshOnInsert, CuckooFilter.WF,
      Bool.true_eq_false, false_and, if_false, Nat.add_zero, false_implies, true_implies,
      true_and]
    exact ⟨⟨r1, h.2.trans hmask.symm⟩, r2, r3, hr7⟩
  · have hp' : (CuckooFilter.insertLoop env F draws env.KICKS_MAX_COUNT 0 F.table index fp).placed
        = false := by simpa using hp
    have hr7 := r7
    simp only [hp', true_and] at hr7
    simp only [CuckooFilter.insert, hp', Bool.false_eq_true, if_false, CuckooFilter.WF,
      false_implies, true_implies, true_and]
    exact ⟨⟨r1, h.2.trans hmask.symm⟩, r2, r3, ⟨r5, r4⟩, hr7⟩

/-! ## Membership tests and counts -/

theorem CuckooTable.slotCount_pos_iff (t : CuckooTable) (b f : Nat) :
    0 < t.slotCount b f ↔ ∃ j, j < t.bit_manager.entries_per_bucket ∧ t.getFingerprint b j = f := by
  unfold CuckooTable.slotCount
  constructor
  · intro h
    obtain ⟨j, hj, hg⟩ := sum_map_range_pos _ _ h
    refine ⟨j, hj, ?_⟩
    by_contra hc
    simp [hc] at hg
  · rintro ⟨j, hj, hg⟩
    have := sum_map_range_ge (fun j => if t.getFingerprint b j = f then 1 else 0) _ j hj
    simp only [hg, if_true] at this
    omega

theorem CuckooTable.containsFingerprint_iff (t : CuckooTable) (h : t.WF) (b fp : Nat) :
    t.containsFingerprint b fp = true ↔
      ∃ j, j < t.bit_manager.entries_per_bucket ∧ t.getFingerprint b j = fp := by
  unfold CuckooTable.containsFingerprint BitManager.hasvalue
  rw [List.any_eq_true]
  constructor
  · rintro ⟨j, hj, hr⟩
    refine ⟨j, List.mem_range.mp hj, ?_⟩
    rw [CuckooTable.getFingerprint_eq_read t h]
    simpa using hr
  · rintro ⟨j, hj, hr⟩
    refine ⟨j, List.mem_range.mpr hj, ?_⟩
    rw [CuckooTable.getFingerprint_eq_read t h] at hr
    simpa using hr

theorem CuckooTable.containsFingerprint2_eq (t : CuckooTable) (i1 i2 fp : Nat) :
    t.containsFingerprint2 i1 i2 fp = (t.containsFingerprint i1 fp || t.containsFingerprint i2 fp) :=
  rfl

theorem CuckooFilter.pairCount_pos_iff {α : Type} (env : FilterEnv α) (F : CuckooFilter)
    (t : CuckooTable) (f a : Nat) (ha : a < t.table_size)
    (hc : CuckooFilter.indexComplement env F a f < t.table_size) :
    0 < CuckooFilter.pairCount env F t f a ↔
      (0 < t.slotCount a f ∨ 0 < t.slotCount (CuckooFilter.indexComplement env F a f) f) := by
  unfold CuckooFilter.pairCount
  constructor
  · intro h
    obtain ⟨b, _, hg⟩ := sum_map_range_pos _ _ h
    by_cases hb : b = a ∨ b = CuckooFilter.indexComplement env F a f
    · simp only [hb, if_true] at hg
      rcases hb with hb | hb
      · left; rw [← hb]; exact hg
      · right; rw [← hb]; exact hg
    · simp [hb] at hg
  · rintro (h | h)
    · have := sum_map_range_ge (fun b => if b = a ∨ b = CuckooFilter.indexComplement env F a f
        then t.slotCount b f else 0) _ a ha
      simp only [true_or, if_true] at this
      omega
    · have := sum_map_range_ge (fun b => if b = a ∨ b = CuckooFilter.indexComplement env F a f
        then t.slotCount b f else 0) _ _ hc
      simp only [or_true, if_true] at this
      omega

theorem CuckooFilter.containsFingerprint2_iff {α : Type} (env : FilterEnv α) (F : CuckooFilter)
    (t : CuckooTable) (h : t.WF) (f a : Nat) (ha : a < t.table_size)
    (hc : CuckooFilter.indexComplement env F a f < t.table_size) :
    t.containsFingerprint2 a (CuckooFilter.indexComplement env F a f) f = true ↔
      0 < CuckooFilter.pairCount env F t f a := by
  rw [CuckooFilter.pairCount_pos_iff env F t f a ha hc, CuckooTable.containsFingerprint2_eq,
    Bool.or_eq_true, CuckooTable.containsFingerprint_iff t h, CuckooTable.containsFingerprint_iff t h,
    CuckooTable.slotCount_pos_iff, CuckooTable.slotCount_pos_iff]

/-! ## `deleteElement` on the table -/

theorem CuckooFilter.deleteEither_cases (t : CuckooTable) (fp i1 i2 : Nat) :
    (∃ b j, (b = i1 ∨ b = i2) ∧ j < t.bit_manager.entries_per_bucket ∧
        t.getFingerprint b j = fp ∧
        CuckooFilter.deleteEither t fp i1 i2 = (t.insertFingerprint b j 0, true)) ∨
    ((∀ j, j < t.bit_manager.entries_per_bucket → t.getFingerprint i1 j ≠ fp) ∧
      (∀ j, j < t.bit_manager.entries_per_bucket → t.getFingerprint i2 j ≠ fp) ∧
        CuckooFilter.deleteEither t fp i1 i2 = (t, false)) := by
  unfold CuckooFilter.deleteEither
  rcases CuckooTable.deleteFingerprint_cases t fp i1 with ⟨j, hj, hg, _, he⟩ | ⟨hn1, he⟩
  · left
    refine ⟨i1, j, Or.inl rfl, hj, hg, ?_⟩
    rw [he]
    simp
  · rw [he]
    simp only [Bool.false_eq_true, if_false]
    rcases CuckooTable.deleteFingerprint_cases t fp i2 with ⟨j, hj, hg, _, he2⟩ | ⟨hn2, he2⟩
    · left
      exact ⟨i2, j, Or.inr rfl, hj, hg, he2⟩
    · right
      exact ⟨hn1, hn2, he2⟩

theorem CuckooFilter.deleteEither_spec {α : Type} (env : FilterEnv α) (F : CuckooFilter)
    (hF : F.table.WF) (t : CuckooTable) (h : t.WF) (hsz : t.table_size = F.table.table_size)
    (fp i1 : Nat) (hi1 : i1 < F.table.table_size) :
    (CuckooFilter.deleteEither t fp i1 (CuckooFilter.indexComplement env F i1 fp)).1.WF ∧
    (CuckooFilter.deleteEither t fp i1 (CuckooFilter.indexComplement env F i1 fp)).1.table_size =
      F.table.table_size ∧
    (CuckooFilter.deleteEither t fp i1 (CuckooFilter.indexComplement env F i1 fp)).1.bit_manager =
      t.bit_manager ∧
    ((CuckooFilter.deleteEither t fp i1 (CuckooFilter.indexComplement env F i1 fp)).2 = true ↔
      0 < CuckooFilter.pairCount env F t fp i1) ∧
    ((CuckooFilter.deleteEither t fp i1 (CuckooFilter.indexComplement env F i1 fp)).2 = false →
      (CuckooFilter.deleteEither t fp i1 (CuckooFilter.indexComplement env F i1 fp)).1 = t) ∧
    ∀ f a, f ≠ 0 → a < F.table.table_size →
      CuckooFilter.pairCount env F
          (CuckooFilter.deleteEither t fp i1 (CuckooFilter.indexComplement env F i1 fp)).1 f a +
        (if (CuckooFilter.deleteEither t fp i1 (CuckooFilter.indexComplement env F i1 fp)).2 = true ∧
          fp = f ∧ (i1 = a ∨ i1 = CuckooFilter.indexComplement env F a f) then 1 else 0) =
      CuckooFilter.pairCount env F t f a := by
  have hc : CuckooFilter.indexComplement env F i1 fp < F.table.table_size :=
    CuckooFilter.indexComplement_lt env F hF i1 fp
  have hpos := CuckooFilter.pairCount_pos_iff env F t fp i1 (by rw [hsz]; exact hi1)
    (by rw [hsz]; exact hc)
  rw [CuckooTable.slotCount_pos_iff, CuckooTable.slotCount_pos_iff] at hpos
  rcases CuckooFilter.deleteEither_cases t fp i1 (CuckooFilter.indexComplement env F i1 fp) with
    ⟨b, j, hb, hj, hg, he⟩ | ⟨hn1, hn2, he⟩
  · rw [he]
    have hblt : b < F.table.table_size := by
      rcases hb with hb | hb
      · rw [hb]; exact hi1
      · rw [hb]; exact hc
    refine ⟨CuckooTable.insertFingerprint_WF t h b j 0, hsz, rfl, ?_, by simp, ?_⟩
    · simp only [true_iff]
      apply hpos.mpr
      rcases hb with hb | hb
      · left; exact ⟨j, hj, by rw [← hb]; exact hg⟩
      · right; exact ⟨j, hj, by rw [← hb]; exact hg⟩
    · intro f a hf ha
      have key := CuckooFilter.pairCount_insertFingerprint env F t h b j 0 f a
        (by rw [hsz]; exact hblt) hj
      have hz : ¬ ((b = a ∨ b = CuckooFilter.indexComplement env F a f) ∧
          0 % 2 ^ t.bit_manager.bits_per_fp = f) := by
        rintro ⟨_, hx⟩
        rw [Nat.zero_mod] at hx
        exact hf hx.symm
      rw [if_neg hz, hg, Nat.add_zero] at key
      rw [← key]
      congr 1
      by_cases hff : fp = f
      · subst hff
        have hin : (b = a ∨ b = CuckooFilter.indexComplement env F a fp) ↔
            (i1 = a ∨ i1 = CuckooFilter.indexComplement env F a fp) := by
          rcases hb with hb | hb
          · rw [hb]
          · rw [hb]
            exact CuckooFilter.inPair_indexComplement env F hF fp a i1 ha hi1
        simp only [true_and, and_true, hin]
      · simp [hff]
  · rw [he]
    refine ⟨h, hsz, rfl, ?_, fun _ => rfl, ?_⟩
    · simp only [Bool.false_eq_true, false_iff, Nat.not_lt, Nat.le_zero]
      by_contra hne
      rcases hpos.mp (Nat.pos_of_ne_zero hne) with ⟨j, hj, hg⟩ | ⟨j, hj, hg⟩
      · exact hn1 j hj hg
      · exact hn2 j hj hg
    · intro f a _ _
      simp

/-! ## `deleteElement` while no victim is held -/

theorem CuckooFilter.deleteElement_noVictim {α : Type} (env : FilterEnv α) (F : CuckooFilter)
    (h : F.WF) (hv : F.victim.fp = 0) (e : α) (draws : Nat → Nat) :
    (CuckooFilter.deleteElement env F e draws).1.WF ∧
    (CuckooFilter.deleteElement env F e draws).1.table.table_size = F.table.table_size ∧
    (CuckooFilter.deleteElement env F e draws).1.table.bit_manager = F.table.bit_manager ∧
    (CuckooFilter.deleteElement env F e draws).1.fp_mask = F.fp_mask ∧
    (CuckooFilter.deleteElement env F e draws).1.victim.fp = 0 ∧
    ((CuckooFilter.deleteElement env F e draws).2 = true ↔
      0 < CuckooFilter.pairCount env F F.table (CuckooFilter.firstPass env F e).1
        (CuckooFilter.firstPass env F e).2) ∧
    ((CuckooFilter.deleteElement env F e draws).2 = true →
      (CuckooFilter.deleteElement env F e draws).1.element_count =
        ((F.element_count + 2 ^ 64 - 1) % 2 ^ 64 + 2 ^ 64 - 1) % 2 ^ 64) ∧
    ((CuckooFilter.deleteElement env F e draws).2 = false →
      (CuckooFilter.deleteElement env F e draws).1 = F) ∧
    ∀ f a, f ≠ 0 → a < F.table.table_size →
      CuckooFilter.pairCount env F (CuckooFilter.deleteElement env F e draws).1.table f a +
        (if (CuckooFilter.deleteElement env F e draws).2 = true ∧
          (CuckooFilter.firstPass env F e).1 = f ∧
          ((CuckooFilter.firstPass env F e).2 = a ∨
            (CuckooFilter.firstPass env F e).2 = CuckooFilter.indexComplement env F a f)
          then 1 else 0) =
      CuckooFilter.pairCount env F F.table f a := by
  obtain ⟨_, _, hi1⟩ := CuckooFilter.firstPass_spec env F h e
  obtain ⟨d1, d2, d3, d4, d5, d6⟩ := CuckooFilter.deleteEither_spec env F h.1 F.table h.1 rfl
    (CuckooFilter.firstPass env F e).1 (CuckooFilter.firstPass env F e).2 hi1
  have hmask : (CuckooFilter.deleteEither F.table (CuckooFilter.firstPass env F e).1
      (CuckooFilter.firstPass env F e).2
      (CuckooFilter.indexComplement env F (CuckooFilter.firstPass env F e).2
        (CuckooFilter.firstPass env F e).1)).1.fp_mask = F.table.fp_mask := by
    rw [d1.2.2.1, h.1.2.2.1, d3]
  by_cases hd : (CuckooFilter.deleteEither F.table (CuckooFilter.firstPass env F e).1
      (CuckooFilter.firstPass env F e).2
      (CuckooFilter.indexComplement env F (CuckooFilter.firstPass env F e).2
        (CuckooFilter.firstPass env F e).1)).2 = true
  · have hd6 := d6
    simp only [hd, true_and] at hd6
    simp only [CuckooFilter.deleteElement, hd, if_true, hv, bne_self_eq_false, Bool.false_eq_true,
      if_false, CuckooFilter.refreshOnDelete, CuckooFilter.WF, true_and, true_iff,
      Bool.true_eq_false, false_implies, and_true, true_implies]
    exact ⟨⟨d1, h.2.trans hmask.symm⟩, d2, d3, d4.mp hd, hd6⟩
  · have hd' : (CuckooFilter.deleteEither F.table (CuckooFilter.firstPass env F e).1
        (CuckooFilter.firstPass env F e).2
        (CuckooFilter.indexComplement env F (CuckooFilter.firstPass env F e).2
          (CuckooFilter.firstPass env F e).1)).2 = false := by simpa using hd
    have heq := d5 hd'
    have hd4 : ¬ 0 < CuckooFilter.pairCount env F F.table (CuckooFilter.firstPass env F e).1
        (CuckooFilter.firstPass env F e).2 := fun hx => hd (d4.mpr hx)
    simp only [CuckooFilter.deleteElement, hd', heq, Bool.false_eq_true, if_false, hv,
      bne_self_eq_false, Bool.false_and, false_and, Nat.add_zero, false_implies, true_implies,
      false_iff, implies_true, and_true, true_and]
    exact ⟨h, hd4⟩

/-! ## Construction -/

theorem highestPowerOfTwoLoop_pow (n : Nat) :
    ∀ (fuel j : Nat), j + fuel ≤ 32 →
      ∃ k, k ≤ 32 ∧ highestPowerOfTwoLoop n fuel (2 ^ j) = 2 ^ k := by
  intro fuel
  induction fuel with
  | zero => intro j hj; exact ⟨j, hj, rfl⟩
  | succ m ih =>
    intro j hj
    unfold highestPowerOfTwoLoop
    by_cases hn : n ≤ 2 ^ j
    · rw [if_pos hn]; exact ⟨j, by omega, rfl⟩
    · rw [if_neg hn]
      have : 2 * 2 ^ j = 2 ^ (j + 1) := by rw [Nat.pow_succ]; omega
      rw [this]
      exact ih (j + 1) (by omega)

theorem highestPowerOfTwo_pow (m : Nat) : ∃ k, k ≤ 32 ∧ highestPowerOfTwo m = 2 ^ k :=
  highestPowerOfTwoLoop_pow _ 32 0 (by omega)

theorem CuckooTable.new_ok (fp_type : FpType) (entries bits table_size fp_mask : Nat)
    (t : CuckooTable) (h : CuckooTable.new fp_type entries bits table_size fp_mask = Except.ok t) :
    CuckooTable.supported fp_type entries bits = true ∧
      t = ⟨table_size, fp_mask, ⟨bits, entries⟩, List.replicate table_size 0⟩ := by
  unfold CuckooTable.new at h
  unfold CuckooTable.supported
  split_ifs at h with h1 h2 h3 h4 h5
  · obtain ⟨a, b, c⟩ := h1
    subst a b c
    exact ⟨by decide, (Except.ok.inj h).symm⟩
  · obtain ⟨a, b, c⟩ := h2
    subst a b c
    exact ⟨by decide, (Except.ok.inj h).symm⟩
  · obtain ⟨a, b, c⟩ := h3
    subst a b c
    exact ⟨by decide, (Except.ok.inj h).symm⟩
  · obtain ⟨a, b, c⟩ := h4
    subst a b c
    exact ⟨by decide, (Except.ok.inj h).symm⟩
  · obtain ⟨a, b, c⟩ := h5
    subst a b c
    exact ⟨by decide, (Except.ok.inj h).symm⟩

theorem CuckooTable.supported_bounds (fp_type : FpType) (entries bits : Nat)
    (h : CuckooTable.supported fp_type entries bits = true) :
    1 ≤ bits ∧ bits ≤ 32 ∧ 0 < entries := by
  unfold CuckooTable.supported at h
  simp only [Bool.or_eq_true, Bool.and_eq_true, beq_iff_eq] at h
  omega

theorem CuckooTable.getFingerprint_replicate (table_size fp_mask : Nat) (bm : BitManager)
    (i j : Nat) :
    (CuckooTable.mk table_size fp_mask bm (List.replicate table_size 0)).getFingerprint i j = 0 := by
  unfold CuckooTable.getFingerprint
  have : (List.replicate table_size 0).getD i 0 = 0 := by
    rw [List.getD_eq_getElem?_getD]
    by_cases hi : i < table_size
    · simp [List.getElem?_replicate, hi]
    · simp [List.getElem?_replicate, hi]
  simp only [this, BitManager.read_zero, Nat.zero_and]

theorem CuckooFilter.new_fresh (fp_type : FpType) (m bits entries : Nat) (F0 : CuckooFilter)
    (h : CuckooFilter.new fp_type m bits entries = Except.ok F0) :
    F0.WF ∧ F0.victim.fp = 0 ∧ F0.element_count = 0 ∧ F0.is_empty = true ∧
      CuckooTable.supported fp_type entries bits = true ∧
      F0.table.bit_manager = ⟨bits, entries⟩ ∧
      ∀ i j, F0.table.getFingerprint i j = 0 := by
  unfold CuckooFilter.new at h
  cases ht : CuckooTable.new fp_type entries bits (highestPowerOfTwo m)
      ((2 ^ bits - 1) % 2 ^ 32) with
  | error e => rw [ht] at h; simp at h
  | ok t =>
    rw [ht] at h
    simp only [Except.ok.injEq] at h
    obtain ⟨hs, hte⟩ := CuckooTable.new_ok _ _ _ _ _ _ ht
    obtain ⟨hb1, hb32, he⟩ := CuckooTable.supported_bounds _ _ _ hs
    subst h
    subst hte
    have hle : 2 ^ bits ≤ 2 ^ 32 := Nat.pow_le_pow_right (by decide) hb32
    have hpos : 0 < 2 ^ bits := Nat.two_pow_pos bits
    have hmod : (2 ^ bits - 1) % 2 ^ 32 = 2 ^ bits - 1 := Nat.mod_eq_of_lt (by omega)
    refine ⟨⟨⟨highestPowerOfTwo_pow m, by simp, hmod, hb1, hb32, he⟩, rfl⟩, rfl, rfl, rfl, hs,
      rfl, ?_⟩
    intro i j
    exact CuckooTable.getFingerprint_replicate _ _ _ i j

theorem CuckooFilter.pairCount_eq_zero {α : Type} (env : FilterEnv α) (F : CuckooFilter)
    (t : CuckooTable) (f a : Nat) (hf : f ≠ 0) (h0 : ∀ i j, t.getFingerprint i j = 0) :
    CuckooFilter.pairCount env F t f a = 0 := by
  unfold CuckooFilter.pairCount CuckooTable.slotCount
  apply List.sum_eq_zero
  intro x hx
  simp only [List.mem_map, List.mem_range] at hx
  obtain ⟨b, _, hb⟩ := hx
  rw [← hb]
  split_ifs
  · apply List.sum_eq_zero
    intro y hy
    simp only [List.mem_map, List.mem_range] at hy
    obtain ⟨j, _, hj⟩ := hy
    rw [← hj, h0 b j, if_neg (fun e => hf e.symm)]
  · rfl

/-! ## Sequences of insertions -/

theorem CuckooFilter.memberCount_cons {α : Type} (env : FilterEnv α) (F : CuckooFilter)
    (e : α) (l : List α) (f a : Nat) :
    CuckooFilter.memberCount env F (e :: l) f a =
      (if (CuckooFilter.firstPass env F e).1 = f ∧
          ((CuckooFilter.firstPass env F e).2 = a ∨
            (CuckooFilter.firstPass env F e).2 = CuckooFilter.indexComplement env F a f)
        then 1 else 0) + CuckooFilter.memberCount env F l f a := by
  simp only [CuckooFilter.memberCount, List.map_cons, List.sum_cons]

theorem CuckooFilter.memberCount_pos {α : Type} (env : FilterEnv α) (F : CuckooFilter)
    (l : List α) (e : α) (he : e ∈ l) :
    0 < CuckooFilter.memberCount env F l (CuckooFilter.firstPass env F e).1
      (CuckooFilter.firstPass env F e).2 := by
  induction l with
  | nil => simp at he
  | cons x l ih =>
    rw [CuckooFilter.memberCount_cons]
    rcases List.mem_cons.mp he with hx | hx
    · subst hx
      simp
    · have := ih hx
      omega

theorem CuckooFilter.memberCount_perm {α : Type} (env : FilterEnv α) (F : CuckooFilter)
    (l l' : List α) (hp : l.Perm l') (f a : Nat) :
    CuckooFilter.memberCount env F l f a = CuckooFilter.memberCount env F l' f a := by
  unfold CuckooFilter.memberCount
  exact (hp.map _).sum_eq

theorem CuckooFilter.insertElements_spec {α : Type} (env : FilterEnv α) :
    ∀ (ops : List (α × (Nat → Nat))) (F : CuckooFilter), F.WF → F.victim.fp = 0 →
      (CuckooFilter.insertElements env F ops).2 = true →
      (CuckooFilter.insertElements env F ops).1.WF ∧
      (CuckooFilter.insertElements env F ops).1.table.table_size = F.table.table_size ∧
      (CuckooFilter.insertElements env F ops).1.table.bit_manager = F.table.bit_manager ∧
      (CuckooFilter.insertElements env F ops).1.fp_mask = F.fp_mask ∧
      (CuckooFilter.insertElements env F ops).1.victim.fp = 0 ∧
      ∀ f a, f ≠ 0 → a < F.table.table_size →
        CuckooFilter.pairCount env F (CuckooFilter.insertElements env F ops).1.table f a =
          CuckooFilter.pairCount env F F.table f a +
            CuckooFilter.memberCount env F (ops.map Prod.fst) f a := by
  intro ops
  induction ops with
  | nil =>
    intro F h hv _
    refine ⟨h, rfl, rfl, rfl, hv, ?_⟩
    intro f a _ _
    simp [CuckooFilter.insertElements, CuckooFilter.memberCount]
  | cons op ops ih =>
    intro F h hv hall
    obtain ⟨hfp0, hfp, hi⟩ := CuckooFilter.firstPass_spec env F h op.1
    obtain ⟨s1, s2, s3, s4, s5, _, s7⟩ := CuckooFilter.insert_spec env F h
      (CuckooFilter.firstPass env F op.1).1 (CuckooFilter.firstPass env F op.1).2 op.2 hi hfp0 hfp
    simp only [CuckooFilter.insertElements, CuckooFilter.insertElement] at hall ⊢
    by_cases hok : (CuckooFilter.insert env F (CuckooFilter.firstPass env F op.1).1
        (CuckooFilter.firstPass env F op.1).2 op.2).2 = true
    · simp only [hok, if_true] at hall ⊢
      have hv1 := (congrArg Victim.fp (s5 hok)).trans hv
      obtain ⟨r1, r2, r3, r4, r5, r6⟩ := ih _ s1 hv1 hall
      refine ⟨r1, r2.trans s2, r3.trans s3, r4.trans s4, r5, ?_⟩
      intro f a hf ha
      have h6 := r6 f a hf (by rw [s2]; exact ha)
      rw [CuckooFilter.pairCount_congr env F _ s2, CuckooFilter.pairCount_congr env F _ s2,
        CuckooFilter.memberCount_congr env F _ s2 s4] at h6
      rw [h6, List.map_cons, CuckooFilter.memberCount_cons]
      have h7 := s7 f a hf ha
      simp only [hok, Bool.true_eq_false, false_and, if_false, Nat.add_zero] at h7
      rw [h7]
      omega
    · simp only [hok, if_false] at hall
      simp at hall

/-! ## `containsElement` -/

theorem CuckooFilter.containsElement_of_pairCount_pos {α : Type} (env : FilterEnv α)
    (F : CuckooFilter) (h : F.WF) (e : α)
    (hpos : 0 < CuckooFilter.pairCount env F F.table (CuckooFilter.firstPass env F e).1
      (CuckooFilter.firstPass env F e).2) :
    CuckooFilter.containsElement env F e = true := by
  obtain ⟨_, _, hi⟩ := CuckooFilter.firstPass_spec env F h e
  have := (CuckooFilter.containsFingerprint2_iff env F F.table h.1 _ _ hi
    (CuckooFilter.indexComplement_lt env F h.1 _ _)).mpr hpos
  simp only [CuckooFilter.containsElement, this, Bool.or_true]

theorem CuckooFilter.containsElement_noVictim {α : Type} (env : FilterEnv α)
    (F : CuckooFilter) (h : F.WF) (hv : F.victim.fp = 0) (e : α) :
    CuckooFilter.containsElement env F e = true ↔
      0 < CuckooFilter.pairCount env F F.table (CuckooFilter.firstPass env F e).1
        (CuckooFilter.firstPass env F e).2 := by
  obtain ⟨_, _, hi⟩ := CuckooFilter.firstPass_spec env F h e
  rw [← CuckooFilter.containsFingerprint2_iff env F F.table h.1 _ _ hi
    (CuckooFilter.indexComplement_lt env F h.1 _ _)]
  simp only [CuckooFilter.containsElement, hv, bne_self_eq_false, Bool.false_and, Bool.false_or]

theorem CuckooFilter.containsElement_of_victim {α : Type} (env : FilterEnv α)
    (F : CuckooFilter) (e : α) (hv : F.victim.fp ≠ 0)
    (hfp : F.victim.fp = (CuckooFilter.firstPass env F e).1)
    (hidx : F.victim.index = (CuckooFilter.firstPass env F e).2 ∨
      F.victim.index = CuckooFilter.indexComplement env F (CuckooFilter.firstPass env F e).2
        (CuckooFilter.firstPass env F e).1) :
    CuckooFilter.containsElement env F e = true := by
  simp only [CuckooFilter.containsElement, Bool.or_eq_true, Bool.and_eq_true, bne_iff_ne, ne_eq,
    beq_iff_eq]
  left
  refine ⟨⟨hv, hfp.symm⟩, ?_⟩
  rcases hidx with h1 | h1
  · left; exact h1.symm
  · right; exact h1.symm

/-! ## The claims -/

/-- C1: no false negatives. For every configuration the constructor accepts, every hash
function and every choice of eviction draws, after a sequence of `insertElement` calls on a fresh
filter that all returned true, `containsElement` returns true for every inserted element. -/
theorem CuckooFilter.no_false_negatives {α : Type} (env : FilterEnv α) (fp_type : FpType)
    (max_table_size bits_per_fp entries_per_bucket : Nat) (F0 : CuckooFilter)
    (hnew : CuckooFilter.new fp_type max_table_size bits_per_fp entries_per_bucket = Except.ok F0)
    (ops : List (α × (Nat → Nat)))
    (hall : (CuckooFilter.insertElements env F0 ops).2 = true)
    (e : α) (he : e ∈ ops.map Prod.fst) :
    CuckooFilter.containsElement env (CuckooFilter.insertElements env F0 ops).1 e = true := by
  obtain ⟨hwf, hv, _, _, _, _, hzero⟩ := CuckooFilter.new_fresh _ _ _ _ _ hnew
  obtain ⟨r1, r2, _, r4, _, r6⟩ := CuckooFilter.insertElements_spec env ops F0 hwf hv hall
  apply CuckooFilter.containsElement_of_pairCount_pos env _ r1
  rw [CuckooFilter.pairCount_congr env F0 _ r2, CuckooFilter.firstPass_congr env F0 _ r2 r4]
  obtain ⟨hfp0, _, hi⟩ := CuckooFilter.firstPass_spec env F0 hwf e
  rw [r6 _ _ hfp0 hi, CuckooFilter.pairCount_eq_zero env F0 F0.table _ _ hfp0 hzero, Nat.zero_add]
  exact CuckooFilter.memberCount_pos env F0 _ e he

/-- Witness of C1: eight insertions into the two-bucket sample filter all succeed, and
element 1 is then reported as contained. -/
theorem CuckooFilter.no_false_negatives_witness :
    CuckooFilter.containsElement sampleEnv
      (CuckooFilter.insertElements sampleEnv sampleFresh (sampleOps 8)).1 1 = true :=
  CuckooFilter.no_false_negatives sampleEnv FpType.uint8_t 2 8 4 sampleFresh rfl (sampleOps 8)
    (by decide) 1 (by decide)

/-- C2: the index complement is an involution. For a table of `2 ^ k` buckets (`k ≤ 32`, the
sizes a 32-bit `max_table_size` rounds up to), every bucket index `i < table_size` and every
fingerprint `fp` (nonzero or not), `indexComplement(indexComplement(i, fp), fp) = i`; hence the
assertion `i1 == indexComplement(i2, fp)` of `containsElement` holds for every element. -/
theorem CuckooFilter.indexComplement_involutive {α : Type} (env : FilterEnv α)
    (F : CuckooFilter) (k : Nat) (hk : k ≤ 32) (hts : F.table.table_size = 2 ^ k) :
    (∀ i fp, i < F.table.table_size →
      CuckooFilter.indexComplement env F (CuckooFilter.indexComplement env F i fp) fp = i) ∧
    (∀ e : α, (CuckooFilter.firstPass env F e).2 =
      CuckooFilter.indexComplement env F
        (CuckooFilter.indexComplement env F (CuckooFilter.firstPass env F e).2
          (CuckooFilter.firstPass env F e).1) (CuckooFilter.firstPass env F e).1) := by
  have key : ∀ i fp, i < F.table.table_size →
      CuckooFilter.indexComplement env F (CuckooFilter.indexComplement env F i fp) fp = i := by
    intro i fp hi
    rw [CuckooFilter.indexComplement_eq env F k hk hts,
      CuckooFilter.indexComplement_eq env F k hk hts]
    exact xor_mod_two_pow_involutive i _ k (by rw [← hts]; exact hi)
  refine ⟨key, fun e => (key _ _ ?_).symm⟩
  simp only [CuckooFilter.firstPass]
  rw [CuckooFilter.getIndex_eq_mod F k hk hts, hts]
  exact Nat.mod_lt _ (Nat.two_pow_pos k)

/-- Witness of C2: in the sample filter (`2 ^ 1` buckets) bucket 1 is its own second
complement under fingerprint 10. -/
theorem CuckooFilter.indexComplement_involutive_witness :
    CuckooFilter.indexComplement sampleEnv sampleFresh
      (CuckooFilter.indexComplement sampleEnv sampleFresh 1 10) 10 = 1 :=
  (CuckooFilter.indexComplement_involutive sampleEnv sampleFresh 1 (by decide) rfl).1 1 10
    (by decide)

theorem CuckooFilter.pairCount_eq_zero_of_absent {α : Type} (env : FilterEnv α)
    (F : CuckooFilter) (t : CuckooTable) (f a : Nat) (ha : a < t.table_size)
    (hc : CuckooFilter.indexComplement env F a f < t.table_size)
    (habs : ∀ j, j < t.bit_manager.entries_per_bucket →
      t.getFingerprint a j ≠ f ∧ t.getFingerprint (CuckooFilter.indexComplement env F a f) j ≠ f) :
    CuckooFilter.pairCount env F t f a = 0 := by
  by_contra hne
  have hpos := (CuckooFilter.pairCount_pos_iff env F t f a ha hc).mp (Nat.pos_of_ne_zero hne)
  rw [CuckooTable.slotCount_pos_iff, CuckooTable.slotCount_pos_iff] at hpos
  rcases hpos with ⟨j, hj, hg⟩ | ⟨j, hj, hg⟩
  · exact (habs j hj).1 hg
  · exact (habs j hj).2 hg

/-- C3: insert/delete round trip. For every well-formed filter state with no victim held and
every element `e` whose fingerprint is read from no slot of its two candidate buckets, if
`insertElement(e)` returns true then the following `deleteElement(e)` returns true and the
following `containsElement(e)` returns false. -/
theorem CuckooFilter.insert_delete_round_trip {α : Type} (env : FilterEnv α) (F : CuckooFilter)
    (h : F.WF) (hv : F.victim.fp = 0) (e : α) (draws draws' : Nat → Nat)
    (habs : ∀ j, j < F.table.bit_manager.entries_per_bucket →
      F.table.getFingerprint (CuckooFilter.firstPass env F e).2 j ≠
        (CuckooFilter.firstPass env F e).1 ∧
      F.table.getFingerprint
        (CuckooFilter.indexComplement env F (CuckooFilter.firstPass env F e).2
          (CuckooFilter.firstPass env F e).1) j ≠ (CuckooFilter.firstPass env F e).1)
    (hins : (CuckooFilter.insertElement env F e draws).2 = true) :
    (CuckooFilter.deleteElement env (CuckooFilter.insertElement env F e draws).1 e draws').2 = true ∧
    CuckooFilter.containsElement env
      (CuckooFilter.deleteElement env (CuckooFilter.insertElement env F e draws).1 e draws').1 e =
        false := by
  obtain ⟨hfp0, hfp, hi⟩ := CuckooFilter.firstPass_spec env F h e
  have hc := CuckooFilter.indexComplement_lt env F h.1 (CuckooFilter.firstPass env F e).2
    (CuckooFilter.firstPass env F e).1
  have hzero := CuckooFilter.pairCount_eq_zero_of_absent env F F.table _ _ hi hc habs
  obtain ⟨s1, s2, _, s4, s5, _, s7⟩ := CuckooFilter.insert_spec env F h
    (CuckooFilter.firstPass env F e).1 (CuckooFilter.firstPass env F e).2 draws hi hfp0 hfp
  have hins' : (CuckooFilter.insert env F (CuckooFilter.firstPass env F e).1
      (CuckooFilter.firstPass env F e).2 draws).2 = true := hins
  have h7 := s7 _ _ hfp0 hi
  simp only [hins', Bool.true_eq_false, false_and, if_false, Nat.add_zero, hzero, true_or,
    and_self, if_true, Nat.zero_add] at h7
  have hv1 := (congrArg Victim.fp (s5 hins')).trans hv
  obtain ⟨d1, d2, _, d4, d5, d6, _, _, d9⟩ := CuckooFilter.deleteElement_noVictim env
    (CuckooFilter.insert env F (CuckooFilter.firstPass env F e).1
      (CuckooFilter.firstPass env F e).2 draws).1 s1 hv1 e draws'
  rw [CuckooFilter.firstPass_congr env F _ s2 s4, CuckooFilter.pairCount_congr env F _ s2] at d6
  have hdel := d6.mpr (by rw [h7]; exact Nat.one_pos)
  have h9 := d9 _ _ hfp0 (by rw [s2]; exact hi)
  rw [CuckooFilter.firstPass_congr env F _ s2 s4, CuckooFilter.pairCount_congr env F _ s2,
    CuckooFilter.pairCount_congr env F _ s2, CuckooFilter.indexComplement_congr env F _ s2] at h9
  simp only [hdel, true_or, and_self, if_true, h7] at h9
  unfold CuckooFilter.insertElement
  refine ⟨hdel, ?_⟩
  have hcont := CuckooFilter.containsElement_noVictim env _ d1 d5 e
  rw [CuckooFilter.firstPass_congr env F _ (d2.trans s2) (d4.trans s4),
    CuckooFilter.pairCount_congr env F _ (d2.trans s2)] at hcont
  have hz : CuckooFilter.pairCount env F (CuckooFilter.deleteElement env
      (CuckooFilter.insert env F (CuckooFilter.firstPass env F e).1
        (CuckooFilter.firstPass env F e).2 draws).1 e draws').1.table
      (CuckooFilter.firstPass env F e).1 (CuckooFilter.firstPass env F e).2 = 0 := by omega
  rw [hz] at hcont
  by_contra hne
  have : CuckooFilter.containsElement env (CuckooFilter.deleteElement env
      (CuckooFilter.insert env F (CuckooFilter.firstPass env F e).1
        (CuckooFilter.firstPass env F e).2 draws).1 e draws').1 e = true := by
    simpa using hne
  exact absurd (hcont.mp this) (Nat.lt_irrefl 0)

/-- C5: deleting an absent element is a no-op. For every filter state and every element `e`
whose fingerprint is read from no slot of its two candidate buckets and does not match a held
victim (same fingerprint, in one of the two buckets), `deleteElement(e)` returns false and
returns the state as it was: buckets, victim, `element_count` and both flags. -/
theorem CuckooFilter.deleteElement_absent {α : Type} (env : FilterEnv α) (F : CuckooFilter)
    (e : α) (draws : Nat → Nat)
    (habs : ∀ j, j < F.table.bit_manager.entries_per_bucket →
      F.table.getFingerprint (CuckooFilter.firstPass env F e).2 j ≠
        (CuckooFilter.firstPass env F e).1 ∧
      F.table.getFingerprint
        (CuckooFilter.indexComplement env F (CuckooFilter.firstPass env F e).2
          (CuckooFilter.firstPass env F e).1) j ≠ (CuckooFilter.firstPass env F e).1)
    (hvic : ¬ (F.victim.fp ≠ 0 ∧ (CuckooFilter.firstPass env F e).1 = F.victim.fp ∧
      ((CuckooFilter.firstPass env F e).2 = F.victim.index ∨
        CuckooFilter.indexComplement env F (CuckooFilter.firstPass env F e).2
          (CuckooFilter.firstPass env F e).1 = F.victim.index))) :
    CuckooFilter.deleteElement env F e draws = (F, false) := by
  rcases CuckooFilter.deleteEither_cases F.table (CuckooFilter.firstPass env F e).1
    (CuckooFilter.firstPass env F e).2
    (CuckooFilter.indexComplement env F (CuckooFilter.firstPass env F e).2
      (CuckooFilter.firstPass env F e).1) with ⟨b, j, hb, hj, hg, _⟩ | ⟨_, _, he⟩
  · rcases hb with hb | hb
    · rw [hb] at hg; exact absurd hg (habs j hj).1
    · rw [hb] at hg; exact absurd hg (habs j hj).2
  · have hcond : (F.victim.fp != 0 && (CuckooFilter.firstPass env F e).1 == F.victim.fp &&
        ((CuckooFilter.firstPass env F e).2 == F.victim.index ||
          CuckooFilter.indexComplement env F (CuckooFilter.firstPass env F e).2
            (CuckooFilter.firstPass env F e).1 == F.victim.index)) = false := by
      rw [Bool.eq_false_iff]
      intro hx
      apply hvic
      simpa [and_assoc] using hx
    simp only [CuckooFilter.deleteElement, he, Bool.false_eq_true, if_false, hcond]

/-- Witness of C3: element 5 is inserted into the sample filter that holds `0, .., 3`, deleted
again, and is then no longer reported. -/
theorem CuckooFilter.insert_delete_round_trip_witness :
    (CuckooFilter.deleteElement sampleEnv
      (CuckooFilter.insertElement sampleEnv
        (CuckooFilter.insertElements sampleEnv sampleFresh (sampleOps 4)).1 5 (fun k => k)).1 5
        (fun k => k)).2 = true ∧
    CuckooFilter.containsElement sampleEnv
      (CuckooFilter.deleteElement sampleEnv
        (CuckooFilter.insertElement sampleEnv
          (CuckooFilter.insertElements sampleEnv sampleFresh (sampleOps 4)).1 5 (fun k => k)).1 5
          (fun k => k)).1 5 = false :=
  CuckooFilter.insert_delete_round_trip sampleEnv
    (CuckooFilter.insertElements sampleEnv sampleFresh (sampleOps 4)).1
    ⟨⟨⟨1, by decide, by decide⟩, by decide, by decide, by decide, by decide, by decide⟩, by decide⟩
    (by decide) 5 (fun k => k) (fun k => k) (by decide) (by decide)

/-- Witness of C5: element 9 was never inserted into the sample filter that holds `0, .., 3`;
deleting it returns false and the same state. -/
theorem CuckooFilter.deleteElement_absent_witness :
    CuckooFilter.deleteElement sampleEnv
      (CuckooFilter.insertElements sampleEnv sampleFresh (sampleOps 4)).1 9 (fun k => k) =
      ((CuckooFilter.insertElements sampleEnv sampleFresh (sampleOps 4)).1, false) :=
  CuckooFilter.deleteElement_absent sampleEnv
    (CuckooFilter.insertElements sampleEnv sampleFresh (sampleOps 4)).1 9 (fun k => k)
    (by decide) (by decide)

/-- C4: a failed insertion keeps earlier members. If a filter was built from fresh by
`insertElement` calls that all returned true and the next `insertElement` call returns false,
then the kick loop was left without a placement, the victim holds the final `(curr_index,
curr_fp)` of the loop and its fingerprint is nonzero, and `containsElement` still returns true
for every previously inserted element. -/
theorem CuckooFilter.failed_insert_keeps_members {α : Type} (env : FilterEnv α)
    (fp_type : FpType) (max_table_size bits_per_fp entries_per_bucket : Nat) (F0 : CuckooFilter)
    (hnew : CuckooFilter.new fp_type max_table_size bits_per_fp entries_per_bucket = Except.ok F0)
    (ops : List (α × (Nat → Nat)))
    (hall : (CuckooFilter.insertElements env F0 ops).2 = true)
    (e : α) (draws : Nat → Nat)
    (hfail : (CuckooFilter.insertElement env (CuckooFilter.insertElements env F0 ops).1 e
      draws).2 = false) :
    (CuckooFilter.insertLoop env (CuckooFilter.insertElements env F0 ops).1 draws
        env.KICKS_MAX_COUNT 0 (CuckooFilter.insertElements env F0 ops).1.table
        (CuckooFilter.firstPass env (CuckooFilter.insertElements env F0 ops).1 e).2
        (CuckooFilter.firstPass env (CuckooFilter.insertElements env F0 ops).1 e).1).placed = false ∧
    (CuckooFilter.insertElement env (CuckooFilter.insertElements env F0 ops).1 e draws).1.victim =
      ⟨(CuckooFilter.insertLoop env (CuckooFilter.insertElements env F0 ops).1 draws
          env.KICKS_MAX_COUNT 0 (CuckooFilter.insertElements env F0 ops).1.table
          (CuckooFilter.firstPass env (CuckooFilter.insertElements env F0 ops).1 e).2
          (CuckooFilter.firstPass env (CuckooFilter.insertElements env F0 ops).1 e).1).curr_index,
        (CuckooFilter.insertLoop env (CuckooFilter.insertElements env F0 ops).1 draws
          env.KICKS_MAX_COUNT 0 (CuckooFilter.insertElements env F0 ops).1.table
          (CuckooFilter.firstPass env (CuckooFilter.insertElements env F0 ops).1 e).2
          (CuckooFilter.firstPass env (CuckooFilter.insertElements env F0 ops).1 e).1).curr_fp⟩ ∧
    (CuckooFilter.insertElement env (CuckooFilter.insertElements env F0 ops).1 e
      draws).1.victim.fp ≠ 0 ∧
    ∀ x, x ∈ ops.map Prod.fst →
      CuckooFilter.containsElement env
        (CuckooFilter.insertElement env (CuckooFilter.insertElements env F0 ops).1 e draws).1 x =
          true := by
  obtain ⟨hwf, hv, _, _, _, _, hzero⟩ := CuckooFilter.new_fresh _ _ _ _ _ hnew
  obtain ⟨r1, r2, _, r4, _, r6⟩ := CuckooFilter.insertElements_spec env ops F0 hwf hv hall
  generalize CuckooFilter.insertElements env F0 ops = R at *
  obtain ⟨hfp0, hfp, hi⟩ := CuckooFilter.firstPass_spec env R.1 r1 e
  obtain ⟨s1, s2, _, s4, _, s6, s7⟩ := CuckooFilter.insert_spec env R.1 r1
    (CuckooFilter.firstPass env R.1 e).1 (CuckooFilter.firstPass env R.1 e).2 draws hi hfp0 hfp
  have hfail' : (CuckooFilter.insert env R.1 (CuckooFilter.firstPass env R.1 e).1
      (CuckooFilter.firstPass env R.1 e).2 draws).2 = false := hfail
  have hplaced : (CuckooFilter.insertLoop env R.1 draws env.KICKS_MAX_COUNT 0 R.1.table
      (CuckooFilter.firstPass env R.1 e).2 (CuckooFilter.firstPass env R.1 e).1).placed = false := by
    by_contra hc
    have hc' : (CuckooFilter.insertLoop env R.1 draws env.KICKS_MAX_COUNT 0 R.1.table
      (CuckooFilter.firstPass env R.1 e).2 (CuckooFilter.firstPass env R.1 e).1).placed = true := by
      simpa using hc
    simp [CuckooFilter.insert, hc'] at hfail'
  refine ⟨hplaced, ?_, (s6 hfail').1, ?_⟩
  · simp only [CuckooFilter.insertElement, CuckooFilter.insert, hplaced, Bool.false_eq_true,
      if_false]
  · intro x hx
    unfold CuckooFilter.insertElement
    obtain ⟨hx0, _, hxi⟩ := CuckooFilter.firstPass_spec env R.1 r1 x
    have h7 := s7 _ _ hx0 hxi
    have hmem := CuckooFilter.memberCount_pos env F0 _ x hx
    have h6 := r6 (CuckooFilter.firstPass env F0 x).1 (CuckooFilter.firstPass env F0 x).2
      (by rw [← CuckooFilter.firstPass_congr env F0 _ r2 r4]; exact hx0)
      (by rw [← CuckooFilter.firstPass_congr env F0 _ r2 r4, ← r2]; exact hxi)
    rw [CuckooFilter.pairCount_eq_zero env F0 F0.table _ _
      (by rw [← CuckooFilter.firstPass_congr env F0 _ r2 r4]; exact hx0) hzero, Nat.zero_add,
      ← CuckooFilter.firstPass_congr env F0 _ r2 r4, ← CuckooFilter.pairCount_congr env F0 _ r2] at h6
    rw [← CuckooFilter.firstPass_congr env F0 _ r2 r4] at hmem
    simp only [hfail', true_and] at h7
    by_cases hpc : 0 < CuckooFilter.pairCount env R.1
        (CuckooFilter.insert env R.1 (CuckooFilter.firstPass env R.1 e).1
          (CuckooFilter.firstPass env R.1 e).2 draws).1.table
        (CuckooFilter.firstPass env R.1 x).1 (CuckooFilter.firstPass env R.1 x).2
    · apply CuckooFilter.containsElement_of_pairCount_pos env _ s1
      rw [CuckooFilter.firstPass_congr env R.1 _ s2 s4, CuckooFilter.pairCount_congr env R.1 _ s2]
      exact hpc
    · by_cases hvm : (CuckooFilter.insert env R.1 (CuckooFilter.firstPass env R.1 e).1
          (CuckooFilter.firstPass env R.1 e).2 draws).1.victim.fp =
            (CuckooFilter.firstPass env R.1 x).1 ∧
          ((CuckooFilter.insert env R.1 (CuckooFilter.firstPass env R.1 e).1
            (CuckooFilter.firstPass env R.1 e).2 draws).1.victim.index =
              (CuckooFilter.firstPass env R.1 x).2 ∨
           (CuckooFilter.insert env R.1 (CuckooFilter.firstPass env R.1 e).1
            (CuckooFilter.firstPass env R.1 e).2 draws).1.victim.index =
              CuckooFilter.indexComplement env R.1 (CuckooFilter.firstPass env R.1 x).2
                (CuckooFilter.firstPass env R.1 x).1)
      · apply CuckooFilter.containsElement_of_victim env _ x (s6 hfail').1
        · rw [CuckooFilter.firstPass_congr env R.1 _ s2 s4]; exact hvm.1
        · rw [CuckooFilter.firstPass_congr env R.1 _ s2 s4,
            CuckooFilter.indexComplement_congr env R.1 _ s2]
          exact hvm.2
      · rw [if_neg hvm] at h7
        exfalso
        have : 0 < CuckooFilter.pairCount env R.1 R.1.table (CuckooFilter.firstPass env R.1 x).1
            (CuckooFilter.firstPass env R.1 x).2 := by rw [h6]; exact hmem
        omega

/-- Witness of C4: after eight successful insertions the two-bucket sample filter is full; the
insertion of element 8 fails, and element 1, whose fingerprint became the victim, is still
reported as contained. -/
theorem CuckooFilter.failed_insert_keeps_members_witness :
    (CuckooFilter.insertElement sampleEnv
      (CuckooFilter.insertElements sampleEnv sampleFresh (sampleOps 8)).1 8
        (fun k => k + 8)).1.victim = ⟨1, 10⟩ ∧
    CuckooFilter.containsElement sampleEnv
      (CuckooFilter.insertElement sampleEnv
        (CuckooFilter.insertElements sampleEnv sampleFresh (sampleOps 8)).1 8
          (fun k => k + 8)).1 1 = true :=
  ⟨by decide,
    (CuckooFilter.failed_insert_keeps_members sampleEnv FpType.uint8_t 2 8 4 sampleFresh rfl
      (sampleOps 8) (by decide) 8 (fun k => k + 8) (by decide)).2.2.2 1 (by decide)⟩

/-! ## Sequences of deletions -/

theorem CuckooFilter.deleteAll_spec {α : Type} (env : FilterEnv α) :
    ∀ (dels : List (α × (Nat → Nat))) (F : CuckooFilter), F.WF → F.victim.fp = 0 →
      (∀ f a, f ≠ 0 → a < F.table.table_size →
        CuckooFilter.pairCount env F F.table f a =
          CuckooFilter.memberCount env F (dels.map Prod.fst) f a) →
      (CuckooFilter.deleteAll env F dels).2 = List.replicate dels.length true ∧
      (CuckooFilter.deleteAll env F dels).1.WF ∧
      (CuckooFilter.deleteAll env F dels).1.table.table_size = F.table.table_size ∧
      (CuckooFilter.deleteAll env F dels).1.table.bit_manager = F.table.bit_manager ∧
      (CuckooFilter.deleteAll env F dels).1.victim.fp = 0 ∧
      ∀ f a, f ≠ 0 → a < F.table.table_size →
        CuckooFilter.pairCount env F (CuckooFilter.deleteAll env F dels).1.table f a = 0 := by
  intro dels
  induction dels with
  | nil =>
    intro F h hv hinv
    refine ⟨rfl, h, rfl, rfl, hv, ?_⟩
    intro f a hf ha
    have := hinv f a hf ha
    simpa [CuckooFilter.deleteAll, CuckooFilter.memberCount] using this
  | cons op dels ih =>
    intro F h hv hinv
    obtain ⟨hfp0, _, hi⟩ := CuckooFilter.firstPass_spec env F h op.1
    obtain ⟨d1, d2, d3, d4, d5, d6, _, _, d9⟩ :=
      CuckooFilter.deleteElement_noVictim env F h hv op.1 op.2
    have hdel : (CuckooFilter.deleteElement env F op.1 op.2).2 = true := by
      apply d6.mpr
      rw [hinv _ _ hfp0 hi, List.map_cons, CuckooFilter.memberCount_cons]
      simp
    have hinv1 : ∀ f a, f ≠ 0 →
        a < (CuckooFilter.deleteElement env F op.1 op.2).1.table.table_size →
        CuckooFilter.pairCount env (CuckooFilter.deleteElement env F op.1 op.2).1
            (CuckooFilter.deleteElement env F op.1 op.2).1.table f a =
          CuckooFilter.memberCount env (CuckooFilter.deleteElement env F op.1 op.2).1
            (dels.map Prod.fst) f a := by
      intro f a hf ha
      rw [d2] at ha
      rw [CuckooFilter.pairCount_congr env F _ d2, CuckooFilter.memberCount_congr env F _ d2 d4]
      have h9 := d9 f a hf ha
      have h0 := hinv f a hf ha
      rw [List.map_cons, CuckooFilter.memberCount_cons] at h0
      simp only [hdel, true_and] at h9
      omega
    obtain ⟨r1, r2, r3, r4, r5, r6⟩ := ih _ d1 d5 hinv1
    simp only [CuckooFilter.deleteAll, List.length_cons, List.replicate_succ]
    refine ⟨by rw [hdel, r1], r2, r3.trans d2, r4.trans d3, r5, ?_⟩
    intro f a hf ha
    have := r6 f a hf (by rw [d2]; exact ha)
    rwa [CuckooFilter.pairCount_congr env F _ d2] at this

theorem CuckooTable.getNumOfFreeEntries_of_empty (t : CuckooTable)
    (h0 : ∀ i j, i < t.table_size → j < t.bit_manager.entries_per_bucket →
      t.getFingerprint i j = 0) :
    t.getNumOfFreeEntries = t.maxNoOfElements := by
  unfold CuckooTable.getNumOfFreeEntries CuckooTable.maxNoOfElements CuckooTable.entries_per_bucket
  have hrow : ∀ i, i < t.table_size →
      (List.range t.bit_manager.entries_per_bucket).countP (fun j => t.getFingerprint i j == 0) =
        t.bit_manager.entries_per_bucket := by
    intro i hi
    have : (List.range t.bit_manager.entries_per_bucket).countP
        (fun j => t.getFingerprint i j == 0) =
        (List.range t.bit_manager.entries_per_bucket).length := by
      rw [List.countP_eq_length]
      intro j hj
      simp [h0 i j hi (List.mem_range.mp hj)]
    rw [this, List.length_range]
  rw [sum_map_range_congr (fun _ => t.bit_manager.entries_per_bucket) _ t.table_size hrow]
  simp [Nat.mul_comm]

/-- C6: emptying the table. Starting from a fresh filter, after any sequence of `insertElement`
calls that all returned true, one `deleteElement` call for each inserted element, in any
order, returns true every time and leaves every slot empty: `getNumOfFreeEntries` equals
`maxNoOfElements` and `availability` is exactly 1. -/
theorem CuckooFilter.emptying_the_table {α : Type} (env : FilterEnv α)
    (fp_type : FpType) (max_table_size bits_per_fp entries_per_bucket : Nat) (F0 : CuckooFilter)
    (hnew : CuckooFilter.new fp_type max_table_size bits_per_fp entries_per_bucket = Except.ok F0)
    (ops dels : List (α × (Nat → Nat)))
    (hall : (CuckooFilter.insertElements env F0 ops).2 = true)
    (hperm : (dels.map Prod.fst).Perm (ops.map Prod.fst)) :
    (CuckooFilter.deleteAll env (CuckooFilter.insertElements env F0 ops).1 dels).2 =
      List.replicate dels.length true ∧
    (∀ i j, i < F0.table.table_size → j < entries_per_bucket →
      (CuckooFilter.deleteAll env (CuckooFilter.insertElements env F0 ops).1
        dels).1.table.getFingerprint i j = 0) ∧
    (CuckooFilter.deleteAll env (CuckooFilter.insertElements env F0 ops).1
        dels).1.table.getNumOfFreeEntries =
      (CuckooFilter.deleteAll env (CuckooFilter.insertElements env F0 ops).1
        dels).1.table.maxNoOfElements ∧
    (CuckooFilter.deleteAll env (CuckooFilter.insertElements env F0 ops).1 dels).1.availability
      = 1 := by
  obtain ⟨hwf, hv, _, _, _, hbm, hzero⟩ := CuckooFilter.new_fresh _ _ _ _ _ hnew
  obtain ⟨r1, r2, r3, r4, r5, r6⟩ := CuckooFilter.insertElements_spec env ops F0 hwf hv hall
  generalize CuckooFilter.insertElements env F0 ops = R at *
  have hinv : ∀ f a, f ≠ 0 → a < R.1.table.table_size →
      CuckooFilter.pairCount env R.1 R.1.table f a =
        CuckooFilter.memberCount env R.1 (dels.map Prod.fst) f a := by
    intro f a hf ha
    rw [r2] at ha
    rw [CuckooFilter.pairCount_congr env F0 _ r2, CuckooFilter.memberCount_congr env F0 _ r2 r4,
      r6 f a hf ha, CuckooFilter.pairCount_eq_zero env F0 F0.table f a hf hzero, Nat.zero_add]
    exact (CuckooFilter.memberCount_perm env F0 _ _ hperm f a).symm
  obtain ⟨q1, q2, q3, q4, _, q6⟩ := CuckooFilter.deleteAll_spec env dels R.1 r1 r5 hinv
  generalize CuckooFilter.deleteAll env R.1 dels = Q at *
  have hempty : ∀ i j, i < Q.1.table.table_size → j < Q.1.table.bit_manager.entries_per_bucket →
      Q.1.table.getFingerprint i j = 0 := by
    intro i j hi hj
    by_contra hne
    have hi' : i < R.1.table.table_size := by rw [← q3]; exact hi
    have hc : CuckooFilter.indexComplement env R.1 i (Q.1.table.getFingerprint i j) <
        Q.1.table.table_size := by
      rw [q3]; exact CuckooFilter.indexComplement_lt env R.1 r1.1 _ _
    have hpos := (CuckooFilter.pairCount_pos_iff env R.1 Q.1.table (Q.1.table.getFingerprint i j) i
      hi hc).mpr (Or.inl ((CuckooTable.slotCount_pos_iff _ _ _).mpr ⟨j, hj, rfl⟩))
    rw [q6 _ _ hne hi'] at hpos
    exact Nat.lt_irrefl 0 hpos
  have hfree := CuckooTable.getNumOfFreeEntries_of_empty Q.1.table hempty
  refine ⟨q1, ?_, hfree, ?_⟩
  · intro i j hi hj
    apply hempty i j
    · rw [q3, r2]; exact hi
    · rw [q4, r3, hbm]; exact hj
  · unfold CuckooFilter.availability
    rw [hfree]
    apply div_self
    have hsz : 0 < Q.1.table.table_size := by
      obtain ⟨k, _, hk⟩ := q2.1.1
      rw [hk]; exact Nat.two_pow_pos k
    have hen : 0 < Q.1.table.bit_manager.entries_per_bucket := q2.1.2.2.2.2.2
    have : 0 < Q.1.table.maxNoOfElements := Nat.mul_pos hen hsz
    exact_mod_cast Nat.ne_of_gt this

/-- Witness of C6: the elements `0, .., 5` are inserted into the sample filter and deleted in
the same order; every deletion returns true and the table is empty again. -/
theorem CuckooFilter.emptying_the_table_witness :
    (CuckooFilter.deleteAll sampleEnv
      (CuckooFilter.insertElements sampleEnv sampleFresh (sampleOps 6)).1 (sampleOps 6)).2 =
      List.replicate 6 true ∧
    (CuckooFilter.deleteAll sampleEnv
      (CuckooFilter.insertElements sampleEnv sampleFresh (sampleOps 6)).1
        (sampleOps 6)).1.table.getNumOfFreeEntries = 8 :=
  ⟨(CuckooFilter.emptying_the_table sampleEnv FpType.uint8_t 2 8 4 sampleFresh rfl (sampleOps 6)
      (sampleOps 6) (by decide) (List.Perm.refl _)).1,
    by decide⟩

/-- C7 on the code: one successful `insertElement` into the fresh sample filter followed by the
`deleteElement` of the same element, which returns true, leaves `element_count` at
`2 ^ 64 - 1` and `is_empty` false; `deleteElement` decrements the count and `refreshOnDelete`
decrements it again. -/
theorem CuckooFilter.emptying_bookkeeping_double_decrement :
    (CuckooFilter.insertElements sampleEnv sampleFresh (sampleOps 1)).2 = true ∧
    (CuckooFilter.insertElements sampleEnv sampleFresh (sampleOps 1)).1.element_count = 1 ∧
    (CuckooFilter.deleteAll sampleEnv
      (CuckooFilter.insertElements sampleEnv sampleFresh (sampleOps 1)).1 (sampleOps 1)).2 =
        [true] ∧
    (CuckooFilter.deleteAll sampleEnv
      (CuckooFilter.insertElements sampleEnv sampleFresh (sampleOps 1)).1
        (sampleOps 1)).1.element_count = 2 ^ 64 - 1 ∧
    (CuckooFilter.deleteAll sampleEnv
      (CuckooFilter.insertElements sampleEnv sampleFresh (sampleOps 1)).1
        (sampleOps 1)).1.is_empty = false := by
  decide

/-- C8 on the code: the sample filter that holds `0, 1, 2` has no victim and
`element_count = 3`; `deleteElement(0)` finds the fingerprint, returns true and leaves
`element_count = 1`, two less than before. -/
theorem CuckooFilter.deleteElement_decrements_twice :
    (CuckooFilter.insertElements sampleEnv sampleFresh (sampleOps 3)).1.victim.fp = 0 ∧
    (CuckooFilter.insertElements sampleEnv sampleFresh (sampleOps 3)).1.element_count = 3 ∧
    (CuckooFilter.deleteElement sampleEnv
      (CuckooFilter.insertElements sampleEnv sampleFresh (sampleOps 3)).1 0 (fun k => k)).2 = true ∧
    (CuckooFilter.deleteElement sampleEnv
      (CuckooFilter.insertElements sampleEnv sampleFresh (sampleOps 3)).1 0
        (fun k => k)).1.element_count = 1 := by
  decide

/-- C9: construction validation. Building the table succeeds exactly for the combinations
(4, 4, uint8), (8, 4, uint8), (12, 4, uint16), (16, 4, uint16) and (32, 2, uint32) of
`bits_per_fp`, `entries_per_bucket` and storage type, and throws the configuration error for
every other combination; a table that was built reads 0 in every slot of every bucket. -/
theorem CuckooTable.new_validation (fp_type : FpType)
    (entries_per_bucket bits_per_fp table_size fp_mask : Nat) :
    (CuckooTable.new fp_type entries_per_bucket bits_per_fp table_size fp_mask =
      if (bits_per_fp = 4 ∧ entries_per_bucket = 4 ∧ fp_type = FpType.uint8_t) ∨
          (bits_per_fp = 8 ∧ entries_per_bucket = 4 ∧ fp_type = FpType.uint8_t) ∨
          (bits_per_fp = 12 ∧ entries_per_bucket = 4 ∧ fp_type = FpType.uint16_t) ∨
          (bits_per_fp = 16 ∧ entries_per_bucket = 4 ∧ fp_type = FpType.uint16_t) ∨
          (bits_per_fp = 32 ∧ entries_per_bucket = 2 ∧ fp_type = FpType.uint32_t)
      then Except.ok ⟨table_size, fp_mask, ⟨bits_per_fp, entries_per_bucket⟩,
        List.replicate table_size 0⟩
      else Except.error "Bits per fingerprint should be in \x7b4, 8, 12, 16, 32\x7d") ∧
    (∀ t, CuckooTable.new fp_type entries_per_bucket bits_per_fp table_size fp_mask = Except.ok t →
      ∀ i j, t.getFingerprint i j = 0) := by
  constructor
  · by_cases h1 : entries_per_bucket = 4 ∧ bits_per_fp = 4 ∧ fp_type = FpType.uint8_t
    · obtain ⟨a, b, c⟩ := h1
      subst a b c
      simp [CuckooTable.new]
    by_cases h2 : entries_per_bucket = 4 ∧ bits_per_fp = 8 ∧ fp_type = FpType.uint8_t
    · obtain ⟨a, b, c⟩ := h2
      subst a b c
      simp [CuckooTable.new]
    by_cases h3 : entries_per_bucket = 4 ∧ bits_per_fp = 12 ∧ fp_type = FpType.uint16_t
    · obtain ⟨a, b, c⟩ := h3
      subst a b c
      simp [CuckooTable.new]
    by_cases h4 : entries_per_bucket = 4 ∧ bits_per_fp = 16 ∧ fp_type = FpType.uint16_t
    · obtain ⟨a, b, c⟩ := h4
      subst a b c
      simp [CuckooTable.new]
    by_cases h5 : entries_per_bucket = 2 ∧ bits_per_fp = 32 ∧ fp_type = FpType.uint32_t
    · obtain ⟨a, b, c⟩ := h5
      subst a b c
      simp [CuckooTable.new]
    have hS : ¬ ((bits_per_fp = 4 ∧ entries_per_bucket = 4 ∧ fp_type = FpType.uint8_t) ∨
        (bits_per_fp = 8 ∧ entries_per_bucket = 4 ∧ fp_type = FpType.uint8_t) ∨
        (bits_per_fp = 12 ∧ entries_per_bucket = 4 ∧ fp_type = FpType.uint16_t) ∨
        (bits_per_fp = 16 ∧ entries_per_bucket = 4 ∧ fp_type = FpType.uint16_t) ∨
        (bits_per_fp = 32 ∧ entries_per_bucket = 2 ∧ fp_type = FpType.uint32_t)) := by
      rintro (⟨a, b, c⟩ | ⟨a, b, c⟩ | ⟨a, b, c⟩ | ⟨a, b, c⟩ | ⟨a, b, c⟩)
      · exact h1 ⟨b, a, c⟩
      · exact h2 ⟨b, a, c⟩
      · exact h3 ⟨b, a, c⟩
      · exact h4 ⟨b, a, c⟩
      · exact h5 ⟨b, a, c⟩
    rw [if_neg hS]
    unfold CuckooTable.new
    rw [if_neg h1, if_neg h2, if_neg h3, if_neg h4, if_neg h5]
  · intro t ht i j
    obtain ⟨_, hte⟩ := CuckooTable.new_ok _ _ _ _ _ _ ht
    rw [hte]
    exact CuckooTable.getFingerprint_replicate _ _ _ i j

/-- Witness of C9: the table of four buckets of four 8-bit slots is built, and slot 0 of
bucket 2 reads 0. -/
theorem CuckooTable.new_validation_witness :
    (CuckooTable.mk 4 255 ⟨8, 4⟩ [0, 0, 0, 0]).getFingerprint 2 0 = 0 :=
  (CuckooTable.new_validation FpType.uint8_t 4 8 4 255).2 _ rfl 2 0

/-- C10: contract of `replacingFingerprintInsertion(b, fp, eject, prev_fp)` with the draw `r` as
an input, for every well-formed table, in-range bucket `b` and in-width `fp`. It returns true
iff `b` has an empty slot, and then the lowest-index empty slot of `b` reads `fp` and every
other slot of the table is unchanged. If `b` is full and `eject` is false it returns false and
the table is unchanged. If `b` is full and `eject` is true it returns false, `prev_fp` is the
nonzero previous value of slot `r % entries_per_bucket`, that slot now reads `fp`, and every
other slot is unchanged. -/
theorem CuckooTable.replacingFingerprintInsertion_contract (t : CuckooTable) (h : t.WF)
    (b fp : Nat) (eject : Bool) (prev_fp r : Nat) (hb : b < t.table_size)
    (hfp : fp < 2 ^ t.bit_manager.bits_per_fp) :
    ((t.replacingFingerprintInsertion b fp eject prev_fp r).2.1 = true ↔
      ∃ j, j < t.bit_manager.entries_per_bucket ∧ t.getFingerprint b j = 0) ∧
    ((t.replacingFingerprintInsertion b fp eject prev_fp r).2.1 = true →
      ∃ j, j < t.bit_manager.entries_per_bucket ∧ t.getFingerprint b j = 0 ∧
        (∀ j', j' < j → t.getFingerprint b j' ≠ 0) ∧
        (t.replacingFingerprintInsertion b fp eject prev_fp r).1.getFingerprint b j = fp ∧
        ∀ b' j', (b' ≠ b ∨ j' ≠ j) →
          (t.replacingFingerprintInsertion b fp eject prev_fp r).1.getFingerprint b' j' =
            t.getFingerprint b' j') ∧
    ((∀ j, j < t.bit_manager.entries_per_bucket → t.getFingerprint b j ≠ 0) → eject = false →
      (t.replacingFingerprintInsertion b fp eject prev_fp r).2.1 = false ∧
      (t.replacingFingerprintInsertion b fp eject prev_fp r).1 = t) ∧
    ((∀ j, j < t.bit_manager.entries_per_bucket → t.getFingerprint b j ≠ 0) → eject = true →
      (t.replacingFingerprintInsertion b fp eject prev_fp r).2.1 = false ∧
      (t.replacingFingerprintInsertion b fp eject prev_fp r).2.2 =
        t.getFingerprint b (r % t.bit_manager.entries_per_bucket) ∧
      (t.replacingFingerprintInsertion b fp eject prev_fp r).2.2 ≠ 0 ∧
      (t.replacingFingerprintInsertion b fp eject prev_fp r).1.getFingerprint b
        (r % t.bit_manager.entries_per_bucket) = fp ∧
      ∀ b' j', (b' ≠ b ∨ j' ≠ r % t.bit_manager.entries_per_bucket) →
        (t.replacingFingerprintInsertion b fp eject prev_fp r).1.getFingerprint b' j' =
          t.getFingerprint b' j') := by
  have hsame : ∀ j, (t.insertFingerprint b j fp).getFingerprint b j = fp := by
    intro j
    rw [CuckooTable.getFingerprint_insertFingerprint_same t h b j fp hb, Nat.mod_eq_of_lt hfp]
  have hnext : r % t.bit_manager.entries_per_bucket < t.bit_manager.entries_per_bucket :=
    Nat.mod_lt _ h.2.2.2.2.2
  rcases CuckooTable.replacingFingerprintInsertion_cases t b fp eject prev_fp r with
    ⟨j, hj, h0, hlow, he⟩ | ⟨hfull, he⟩
  · rw [he]
    refine ⟨⟨fun _ => ⟨j, hj, h0⟩, fun _ => rfl⟩, ?_, ?_, ?_⟩
    · intro _
      exact ⟨j, hj, h0, hlow, hsame j, fun b' j' hne =>
        CuckooTable.getFingerprint_insertFingerprint_other t h b j fp b' j' hne⟩
    · intro hf _
      exact absurd h0 (hf j hj)
    · intro hf _
      exact absurd h0 (hf j hj)
  · rw [he]
    cases eject
    · simp only [Bool.false_eq_true, if_false, false_iff, not_exists, not_and, false_implies,
        true_and, implies_true, and_self, and_true]
      exact fun j hj => hfull j hj
    · simp only [if_true, Bool.false_eq_true, false_iff, not_exists, not_and, false_implies,
        true_and, implies_true, true_implies]
      refine ⟨fun j hj => hfull j hj, fun _ hx => absurd hx (by decide), fun _ => ?_⟩
      exact ⟨hfull _ hnext, hsame _, fun b' j' hne =>
        CuckooTable.getFingerprint_insertFingerprint_other t h b _ fp b' j' hne⟩

/-- Witness of C10: bucket 0 of the full sample table is asked to take fingerprint 59 with
`eject` set and draw 6; slot `6 % 4 = 2` held 31, which is handed back, and now reads 59. -/
theorem CuckooTable.replacingFingerprintInsertion_contract_witness :
    ((CuckooFilter.insertElements sampleEnv sampleFresh (sampleOps 8)).1.table.replacingFingerprintInsertion
        0 59 true 0 6).2.2 = 31 ∧
    ((CuckooFilter.insertElements sampleEnv sampleFresh (sampleOps 8)).1.table.replacingFingerprintInsertion
        0 59 true 0 6).1.getFingerprint 0 2 = 59 :=
  ⟨by decide,
    ((CuckooTable.replacingFingerprintInsertion_contract
      (CuckooFilter.insertElements sampleEnv sampleFresh (sampleOps 8)).1.table
      ⟨⟨1, by decide, by decide⟩, by decide, by decide, by decide, by decide, by decide⟩
      0 59 true 0 6 (by decide) (by decide)).2.2.2 (by decide) rfl).2.2.2.1⟩

/-! ## Nonzero slots under a slot write -/

theorem countP_eq_sum_map {β : Type} (p : β → Bool) (l : List β) :
    l.countP p = (l.map (fun x => if p x = true then 1 else 0)).sum := by
  induction l with
  | nil => rfl
  | cons x l ih =>
    rw [List.countP_cons, ih, List.map_cons, List.sum_cons]
    omega

theorem CuckooTable.fingerprintCount_insertFingerprint_other (t : CuckooTable) (h : t.WF)
    (i j v b : Nat) (hb : b ≠ i) :
    (t.insertFingerprint i j v).fingerprintCount b = t.fingerprintCount b := by
  unfold CuckooTable.fingerprintCount CuckooTable.entries_per_bucket
  have hbm : (t.insertFingerprint i j v).bit_manager = t.bit_manager := rfl
  rw [hbm]
  apply List.countP_congr
  intro x _
  rw [CuckooTable.getFingerprint_insertFingerprint_other t h i j v b x (Or.inl hb)]

theorem CuckooTable.fingerprintCount_insertFingerprint_same (t : CuckooTable) (h : t.WF)
    (i j v : Nat) (hi : i < t.table_size) (hj : j < t.bit_manager.entries_per_bucket) :
    (t.insertFingerprint i j v).fingerprintCount i + (if t.getFingerprint i j ≠ 0 then 1 else 0) =
      t.fingerprintCount i + (if v % 2 ^ t.bit_manager.bits_per_fp ≠ 0 then 1 else 0) := by
  unfold CuckooTable.fingerprintCount CuckooTable.entries_per_bucket
  have hbm : (t.insertFingerprint i j v).bit_manager = t.bit_manager := rfl
  rw [hbm, countP_eq_sum_map, countP_eq_sum_map]
  have := sum_map_range_update
    (fun x => if (t.getFingerprint i x != 0) = true then 1 else 0)
    (fun x => if ((t.insertFingerprint i j v).getFingerprint i x != 0) = true then 1 else 0)
    t.bit_manager.entries_per_bucket j hj (by
      intro x hx
      simp only []
      rw [CuckooTable.getFingerprint_insertFingerprint_other t h i j v i x (Or.inr hx)])
  simp only [] at this
  rw [CuckooTable.getFingerprint_insertFingerprint_same t h i j v hi] at this
  simpa using this

theorem CuckooTable.occupied_insertFingerprint (t : CuckooTable) (h : t.WF)
    (i j v : Nat) (hi : i < t.table_size) (hj : j < t.bit_manager.entries_per_bucket) :
    (t.insertFingerprint i j v).occupied + (if t.getFingerprint i j ≠ 0 then 1 else 0) =
      t.occupied + (if v % 2 ^ t.bit_manager.bits_per_fp ≠ 0 then 1 else 0) := by
  unfold CuckooTable.occupied
  have hsz : (t.insertFingerprint i j v).table_size = t.table_size := rfl
  rw [hsz]
  have key := sum_map_range_update (fun b => t.fingerprintCount b)
    (fun b => (t.insertFingerprint i j v).fingerprintCount b) t.table_size i hi
    (fun b hb => CuckooTable.fingerprintCount_insertFingerprint_other t h i j v b hb)
  have hs := CuckooTable.fingerprintCount_insertFingerprint_same t h i j v hi hj
  simp only [] at key
  omega

/-- C11: contract of `deleteFingerprint(fp, b)` for every well-formed table, in-range bucket
`b` and nonzero `fp`. It returns true iff some slot of `b` reads `fp`. When it returns true, the
lowest-index slot that read `fp` reads 0, every other slot of the table is unchanged and
`fingerprintCount(b)` has decreased by exactly one. When it returns false the table is
unchanged. -/
theorem CuckooTable.deleteFingerprint_contract (t : CuckooTable) (h : t.WF) (fp b : Nat)
    (hb : b < t.table_size) (hfp : fp ≠ 0) :
    ((t.deleteFingerprint fp b).2 = true ↔
      ∃ j, j < t.bit_manager.entries_per_bucket ∧ t.getFingerprint b j = fp) ∧
    ((t.deleteFingerprint fp b).2 = true →
      ∃ j, j < t.bit_manager.entries_per_bucket ∧ t.getFingerprint b j = fp ∧
        (∀ j', j' < j → t.getFingerprint b j' ≠ fp) ∧
        (t.deleteFingerprint fp b).1.getFingerprint b j = 0 ∧
        (∀ b' j', (b' ≠ b ∨ j' ≠ j) →
          (t.deleteFingerprint fp b).1.getFingerprint b' j' = t.getFingerprint b' j') ∧
        (t.deleteFingerprint fp b).1.fingerprintCount b + 1 = t.fingerprintCount b) ∧
    ((t.deleteFingerprint fp b).2 = false → (t.deleteFingerprint fp b).1 = t) := by
  rcases CuckooTable.deleteFingerprint_cases t fp b with ⟨j, hj, hg, hlow, he⟩ | ⟨hnone, he⟩
  · rw [he]
    refine ⟨⟨fun _ => ⟨j, hj, hg⟩, fun _ => rfl⟩, fun _ => ?_, fun hx => by simp at hx⟩
    refine ⟨j, hj, hg, hlow, ?_, ?_, ?_⟩
    · rw [CuckooTable.getFingerprint_insertFingerprint_same t h b j 0 hb, Nat.zero_mod]
    · intro b' j' hne
      exact CuckooTable.getFingerprint_insertFingerprint_other t h b j 0 b' j' hne
    · have := CuckooTable.fingerprintCount_insertFingerprint_same t h b j 0 hb hj
      rw [hg, Nat.zero_mod] at this
      simpa [hfp] using this
  · rw [he]
    refine ⟨⟨fun hx => by simp at hx, fun ⟨j, hj, hg⟩ => absurd hg (hnone j hj)⟩,
      fun hx => by simp at hx, fun _ => rfl⟩

/-- Witness of C11: the scenario of the spec. In a table of four buckets of four 8-bit slots,
fingerprint 5 is written to slot 0 of bucket 2; `deleteFingerprint(5, 2)` returns true and
slot 0 of bucket 2 reads 0 afterwards. -/
theorem CuckooTable.deleteFingerprint_contract_witness :
    (((CuckooTable.mk 4 255 ⟨8, 4⟩ [0, 0, 0, 0]).insertFingerprint 2 0 5).deleteFingerprint 5 2).2 =
      true ∧
    (((CuckooTable.mk 4 255 ⟨8, 4⟩ [0, 0, 0, 0]).insertFingerprint 2 0 5).deleteFingerprint
      5 2).1.getFingerprint 2 0 = 0 :=
  ⟨((CuckooTable.deleteFingerprint_contract
      ((CuckooTable.mk 4 255 ⟨8, 4⟩ [0, 0, 0, 0]).insertFingerprint 2 0 5)
      ⟨⟨2, by decide, by decide⟩, by decide, by decide, by decide, by decide, by decide⟩
      5 2 (by decide) (by decide)).1).mpr ⟨0, by decide, by decide⟩,
    by decide⟩

/-- C12: slot write/read round trip with frame. For every well-formed table (any width from 1
to 32 bits, so each of the supported widths 4, 8, 12, 16 and 32), every in-range bucket `b`,
every slot `s` and every value `fp`, after `insertFingerprint(b, s, fp)` the call
`getFingerprint(b, s)` returns `fp` masked to `bits_per_fp` bits, and `getFingerprint(b', s')` is
unchanged for every other `(b', s')`. -/
theorem CuckooTable.write_read_round_trip (t : CuckooTable) (h : t.WF) (b s fp : Nat)
    (hb : b < t.table_size) :
    (t.insertFingerprint b s fp).getFingerprint b s = fp % 2 ^ t.bit_manager.bits_per_fp ∧
    (t.insertFingerprint b s fp).getFingerprint b s = fp &&& t.fp_mask ∧
    ∀ b' s', (b' ≠ b ∨ s' ≠ s) →
      (t.insertFingerprint b s fp).getFingerprint b' s' = t.getFingerprint b' s' := by
  have h1 := CuckooTable.getFingerprint_insertFingerprint_same t h b s fp hb
  refine ⟨h1, ?_, fun b' s' hne =>
    CuckooTable.getFingerprint_insertFingerprint_other t h b s fp b' s' hne⟩
  rw [h1, h.2.2.1, Nat.and_pow_two_sub_one_eq_mod]

/-- Witness of C12: a 12-bit table, where a slot straddles a byte boundary. The value `0xABCDE`
is written to slot 1 of bucket 1, which then reads `0xCDE`, and slot 2, which held `0x123`,
still reads `0x123`. -/
theorem CuckooTable.write_read_round_trip_witness :
    ((CuckooTable.mk 2 4095 ⟨12, 4⟩ [0, 0x123000000]).insertFingerprint 1 1 0xABCDE).getFingerprint
        1 1 = 0xCDE ∧
    ((CuckooTable.mk 2 4095 ⟨12, 4⟩ [0, 0x123000000]).insertFingerprint 1 1 0xABCDE).getFingerprint
        1 2 = 0x123 :=
  ⟨(CuckooTable.write_read_round_trip (CuckooTable.mk 2 4095 ⟨12, 4⟩ [0, 0x123000000])
      ⟨⟨1, by decide, by decide⟩, by decide, by decide, by decide, by decide, by decide⟩
      1 1 0xABCDE (by decide)).1,
    by decide⟩

/-- C13: the word-level membership test agrees with the per-slot scan. For every well-formed
table, every bucket `b` and every `fp`, `containsFingerprint(b, fp)` is true iff
`getFingerprint(b, j) = fp` for some slot `j < entries_per_bucket`, and the two-bucket form
`containsFingerprint(b1, b2, fp)` equals `containsFingerprint(b1, fp) || containsFingerprint(b2,
fp)`. -/
theorem CuckooTable.containsFingerprint_agrees_with_scan (t : CuckooTable) (h : t.WF)
    (b b1 b2 fp : Nat) :
    (t.containsFingerprint b fp = true ↔
      ∃ j, j < t.bit_manager.entries_per_bucket ∧ t.getFingerprint b j = fp) ∧
    t.containsFingerprint2 b1 b2 fp =
      (t.containsFingerprint b1 fp || t.containsFingerprint b2 fp) :=
  ⟨CuckooTable.containsFingerprint_iff t h b fp, CuckooTable.containsFingerprint2_eq t b1 b2 fp⟩

/-- Witness of C13: in the full two-bucket sample table fingerprint 24 sits in slot 1 of
bucket 1, and the word-level test on bucket 1 finds it. -/
theorem CuckooTable.containsFingerprint_agrees_with_scan_witness :
    (CuckooFilter.insertElements sampleEnv sampleFresh (sampleOps 8)).1.table.containsFingerprint
      1 24 = true :=
  ((CuckooTable.containsFingerprint_agrees_with_scan
    (CuckooFilter.insertElements sampleEnv sampleFresh (sampleOps 8)).1.table
    ⟨⟨1, by decide, by decide⟩, by decide, by decide, by decide, by decide, by decide⟩
    1 0 1 24).1).mpr ⟨1, by decide, by decide⟩

/-- C15: conceptual deletion of the victim. For every filter state that holds a victim and
every element `e` whose fingerprint equals the victim's, one of whose candidate buckets is the
victim's bucket, and whose fingerprint is read from no slot of the two candidate buckets,
`deleteElement(e)` returns true and changes nothing but the victim's fingerprint, which
becomes 0: every bucket, `element_count` and the flags are as before. -/
theorem CuckooFilter.deleteElement_clears_victim {α : Type} (env : FilterEnv α)
    (F : CuckooFilter) (e : α) (draws : Nat → Nat)
    (hheld : F.victim.fp ≠ 0)
    (hfp : (CuckooFilter.firstPass env F e).1 = F.victim.fp)
    (hidx : (CuckooFilter.firstPass env F e).2 = F.victim.index ∨
      CuckooFilter.indexComplement env F (CuckooFilter.firstPass env F e).2
        (CuckooFilter.firstPass env F e).1 = F.victim.index)
    (habs : ∀ j, j < F.table.bit_manager.entries_per_bucket →
      F.table.getFingerprint (CuckooFilter.firstPass env F e).2 j ≠
        (CuckooFilter.firstPass env F e).1 ∧
      F.table.getFingerprint
        (CuckooFilter.indexComplement env F (CuckooFilter.firstPass env F e).2
          (CuckooFilter.firstPass env F e).1) j ≠ (CuckooFilter.firstPass env F e).1) :
    CuckooFilter.deleteElement env F e draws =
      ({ F with victim := ⟨F.victim.index, 0⟩ }, true) := by
  rcases CuckooFilter.deleteEither_cases F.table (CuckooFilter.firstPass env F e).1
    (CuckooFilter.firstPass env F e).2
    (CuckooFilter.indexComplement env F (CuckooFilter.firstPass env F e).2
      (CuckooFilter.firstPass env F e).1) with ⟨b, j, hb, hj, hg, _⟩ | ⟨_, _, he⟩
  · rcases hb with hb | hb
    · rw [hb] at hg; exact absurd hg (habs j hj).1
    · rw [hb] at hg; exact absurd hg (habs j hj).2
  · have hcond : (F.victim.fp != 0 && (CuckooFilter.firstPass env F e).1 == F.victim.fp &&
        ((CuckooFilter.firstPass env F e).2 == F.victim.index ||
          CuckooFilter.indexComplement env F (CuckooFilter.firstPass env F e).2
            (CuckooFilter.firstPass env F e).1 == F.victim.index)) = true := by
      simp only [Bool.and_eq_true, bne_iff_ne, ne_eq, beq_iff_eq, Bool.or_eq_true]
      exact ⟨⟨hheld, hfp⟩, hidx⟩
    simp only [CuckooFilter.deleteElement, he, Bool.false_eq_true, if_false, hcond, if_true]

/-- Witness of C15: after the failed insertion of element 8 the sample filter holds the victim
`(1, 10)`, the displaced fingerprint of element 1; `deleteElement(1)` returns true and only
clears the victim. -/
theorem CuckooFilter.deleteElement_clears_victim_witness :
    CuckooFilter.deleteElement sampleEnv
      (CuckooFilter.insertElement sampleEnv
        (CuckooFilter.insertElements sampleEnv sampleFresh (sampleOps 8)).1 8
          (fun k => k + 8)).1 1 (fun k => k) =
      ({ (CuckooFilter.insertElement sampleEnv
          (CuckooFilter.insertElements sampleEnv sampleFresh (sampleOps 8)).1 8
            (fun k => k + 8)).1 with victim := ⟨1, 0⟩ }, true) :=
  CuckooFilter.deleteElement_clears_victim sampleEnv
    (CuckooFilter.insertElement sampleEnv
      (CuckooFilter.insertElements sampleEnv sampleFresh (sampleOps 8)).1 8 (fun k => k + 8)).1
    1 (fun k => k) (by decide) (by decide) (by decide) (by decide)

/-! ## `deleteElement` while a victim is held -/

theorem CuckooFilter.deleteEither_table_size (t : CuckooTable) (fp i1 i2 : Nat) :
    (CuckooFilter.deleteEither t fp i1 i2).1.table_size = t.table_size := by
  rcases CuckooFilter.deleteEither_cases t fp i1 i2 with ⟨b, j, _, _, _, he⟩ | ⟨_, _, he⟩
  · rw [he]; rfl
  · rw [he]

/-- C16 on the code: the sample filter holds the victim `(1, 10)` and its bucket 1 is full.
`deleteElement(0)` removes fingerprint 3 from bucket 0 and returns true; the re-insertion of the
victim with draws `0, 0, ..` keeps ejecting slot 0 of bucket 1, which holds 52 and 10 in turn,
both with bucket 1 as their complement, so it never reaches the freed slot and fails, and the
call returns with a victim held. -/
theorem CuckooFilter.deleteElement_may_keep_victim :
    sampleWithVictim.victim = ⟨1, 10⟩ ∧
    sampleWithVictim.table.getFingerprint 0 0 = (CuckooFilter.firstPass sampleEnv sampleWithVictim 0).1 ∧
    (CuckooFilter.deleteElement sampleEnv sampleWithVictim 0 (fun _ => 0)).2 = true ∧
    (CuckooFilter.deleteElement sampleEnv sampleWithVictim 0 (fun _ => 0)).1.table.getFingerprint
      0 0 = 0 ∧
    (CuckooFilter.deleteElement sampleEnv sampleWithVictim 0 (fun _ => 0)).1.victim.fp ≠ 0 := by
  decide

/-- C16 as amended: for every filter state that holds a victim and every element `e` whose
fingerprint is read from a slot of one of its candidate buckets, `deleteElement(e)` returns
true; on return no victim is held if the re-insertion of the old victim found a free slot, and
otherwise the victim is the final `(curr_index, curr_fp)` of the kick loop of that
re-insertion. -/
theorem CuckooFilter.deleteElement_reclaims_victim {α : Type} (env : FilterEnv α)
    (F : CuckooFilter) (e : α) (draws : Nat → Nat)
    (hheld : F.victim.fp ≠ 0)
    (hfound : ∃ j, j < F.table.bit_manager.entries_per_bucket ∧
      (F.table.getFingerprint (CuckooFilter.firstPass env F e).2 j =
          (CuckooFilter.firstPass env F e).1 ∨
        F.table.getFingerprint
          (CuckooFilter.indexComplement env F (CuckooFilter.firstPass env F e).2
            (CuckooFilter.firstPass env F e).1) j = (CuckooFilter.firstPass env F e).1)) :
    (CuckooFilter.deleteElement env F e draws).2 = true ∧
    ((CuckooFilter.insertLoop env F draws env.KICKS_MAX_COUNT 0
        (CuckooFilter.deleteEither F.table (CuckooFilter.firstPass env F e).1
          (CuckooFilter.firstPass env F e).2
          (CuckooFilter.indexComplement env F (CuckooFilter.firstPass env F e).2
            (CuckooFilter.firstPass env F e).1)).1
        F.victim.index F.victim.fp).placed = true →
      (CuckooFilter.deleteElement env F e draws).1.victim.fp = 0) ∧
    ((CuckooFilter.insertLoop env F draws env.KICKS_MAX_COUNT 0
        (CuckooFilter.deleteEither F.table (CuckooFilter.firstPass env F e).1
          (CuckooFilter.firstPass env F e).2
          (CuckooFilter.indexComplement env F (CuckooFilter.firstPass env F e).2
            (CuckooFilter.firstPass env F e).1)).1
        F.victim.index F.victim.fp).placed = false →
      (CuckooFilter.deleteElement env F e draws).1.victim =
        ⟨(CuckooFilter.insertLoop env F draws env.KICKS_MAX_COUNT 0
            (CuckooFilter.deleteEither F.table (CuckooFilter.firstPass env F e).1
              (CuckooFilter.firstPass env F e).2
              (CuckooFilter.indexComplement env F (CuckooFilter.firstPass env F e).2
                (CuckooFilter.firstPass env F e).1)).1
            F.victim.index F.victim.fp).curr_index,
          (CuckooFilter.insertLoop env F draws env.KICKS_MAX_COUNT 0
            (CuckooFilter.deleteEither F.table (CuckooFilter.firstPass env F e).1
              (CuckooFilter.firstPass env F e).2
              (CuckooFilter.indexComplement env F (CuckooFilter.firstPass env F e).2
                (CuckooFilter.firstPass env F e).1)).1
            F.victim.index F.victim.fp).curr_fp⟩) := by
  have hdel : (CuckooFilter.deleteEither F.table (CuckooFilter.firstPass env F e).1
      (CuckooFilter.firstPass env F e).2
      (CuckooFilter.indexComplement env F (CuckooFilter.firstPass env F e).2
        (CuckooFilter.firstPass env F e).1)).2 = true := by
    rcases CuckooFilter.deleteEither_cases F.table (CuckooFilter.firstPass env F e).1
      (CuckooFilter.firstPass env F e).2
      (CuckooFilter.indexComplement env F (CuckooFilter.firstPass env F e).2
        (CuckooFilter.firstPass env F e).1) with ⟨b, j, _, _, _, he⟩ | ⟨hn1, hn2, _⟩
    · rw [he]
    · obtain ⟨j, hj, hg | hg⟩ := hfound
      · exact absurd hg (hn1 j hj)
      · exact absurd hg (hn2 j hj)
  have hsz := CuckooFilter.deleteEither_table_size F.table (CuckooFilter.firstPass env F e).1
      (CuckooFilter.firstPass env F e).2
      (CuckooFilter.indexComplement env F (CuckooFilter.firstPass env F e).2
        (CuckooFilter.firstPass env F e).1)
  generalize hD : CuckooFilter.deleteEither F.table (CuckooFilter.firstPass env F e).1
      (CuckooFilter.firstPass env F e).2
      (CuckooFilter.indexComplement env F (CuckooFilter.firstPass env F e).2
        (CuckooFilter.firstPass env F e).1) = D at hdel hsz
  have hheld' : (F.victim.fp != 0) = true := by simpa using hheld
  have hcongr := CuckooFilter.insertLoop_congr env F
    { F with table := D.1, element_count := (F.element_count + 2 ^ 64 - 1) % 2 ^ 64,
             victim := ⟨F.victim.index, 0⟩ } hsz draws env.KICKS_MAX_COUNT 0 D.1
    F.victim.index F.victim.fp
  simp only [CuckooFilter.deleteElement, hD, hdel, if_true, hheld', CuckooFilter.insert, hcongr]
  by_cases hp : (CuckooFilter.insertLoop env F draws env.KICKS_MAX_COUNT 0 D.1 F.victim.index
      F.victim.fp).placed = true
  · rw [if_pos hp]
    exact ⟨trivial, fun _ => rfl, fun hx => by rw [hp] at hx; exact absurd hx (by decide)⟩
  · have hp' : (CuckooFilter.insertLoop env F draws env.KICKS_MAX_COUNT 0 D.1 F.victim.index
        F.victim.fp).placed = false := by simpa using hp
    rw [if_neg hp]
    exact ⟨trivial, fun hx => by rw [hp'] at hx; exact absurd hx (by decide), fun _ => rfl⟩

/-- Witness of C16 as amended: in the sample filter with the victim `(1, 10)`,
`deleteElement(0)` with draws `0, 1, 2, ..` returns true. -/
theorem CuckooFilter.deleteElement_reclaims_victim_witness :
    (CuckooFilter.deleteElement sampleEnv sampleWithVictim 0 (fun k => k)).2 = true ∧
    (CuckooFilter.deleteElement sampleEnv sampleWithVictim 0 (fun k => k)).1.victim.fp = 0 :=
  ⟨(CuckooFilter.deleteElement_reclaims_victim sampleEnv sampleWithVictim 0 (fun k => k)
      (by decide) ⟨0, by decide, Or.inl (by decide)⟩).1,
    (CuckooFilter.deleteElement_reclaims_victim sampleEnv sampleWithVictim 0 (fun k => k)
      (by decide) ⟨0, by decide, Or.inl (by decide)⟩).2.1 (by decide)⟩

/-! ## Range of bucket indices -/

theorem CuckooFilter.getIndex_of_lt (F : CuckooFilter) (k : Nat)
    (hts : F.table.table_size = 2 ^ k) (hv : Nat) (hhv : hv < 2 ^ 32) :
    F.getIndex hv = hv % 2 ^ k := by
  unfold CuckooFilter.getIndex CuckooTable.getTableSize
  rw [hts]
  have hpos : 0 < 2 ^ k := Nat.two_pow_pos k
  by_cases hk : k < 64
  · have hlt : 2 ^ k < 2 ^ 64 := Nat.pow_lt_pow_right (by decide) hk
    have h1 : (2 ^ k + 2 ^ 64 - 1) % 2 ^ 64 = 2 ^ k - 1 := by
      have : 2 ^ k + 2 ^ 64 - 1 = (2 ^ k - 1) + 2 ^ 64 := by omega
      rw [this, Nat.add_mod_right]
      exact Nat.mod_eq_of_lt (by omega)
    rw [h1, Nat.and_pow_two_sub_one_eq_mod]
  · have hle : 2 ^ 64 ≤ 2 ^ k := Nat.pow_le_pow_right (by decide) (Nat.le_of_not_lt hk)
    have hdvd : 2 ^ 64 ∣ 2 ^ k := Nat.pow_dvd_pow 2 (Nat.le_of_not_lt hk)
    have h1 : (2 ^ k + 2 ^ 64 - 1) % 2 ^ 64 = 2 ^ 64 - 1 := by
      obtain ⟨c, hc⟩ := hdvd
      have hcpos : 0 < c := by
        rcases Nat.eq_zero_or_pos c with h0 | h0
        · rw [h0, Nat.mul_zero] at hc; omega
        · exact h0
      have : 2 ^ k + 2 ^ 64 - 1 = (2 ^ 64 - 1) + 2 ^ 64 * c := by
        rw [hc]
        have : (0 : Nat) < 2 ^ 64 := Nat.two_pow_pos 64
        omega
      rw [this, Nat.add_mul_mod_self_left]
      exact Nat.mod_eq_of_lt (by decide)
    have h32 : (2 : Nat) ^ 32 < 2 ^ 64 := by decide
    rw [h1, Nat.and_pow_two_sub_one_eq_mod, Nat.mod_eq_of_lt (by omega),
      Nat.mod_eq_of_lt (by omega)]

theorem CuckooFilter.insertLoop_curr_index_lt {α : Type} (env : FilterEnv α) (F : CuckooFilter)
    (draws : Nat → Nat) (N : Nat)
    (hc : ∀ i fp, CuckooFilter.indexComplement env F i fp < N) :
    ∀ (remaining kicks : Nat) (t : CuckooTable) (ci cf : Nat), ci < N →
      (CuckooFilter.insertLoop env F draws remaining kicks t ci cf).curr_index < N := by
  intro remaining
  induction remaining with
  | zero => intro kicks t ci cf hci; exact hci
  | succ n ih =>
    intro kicks t ci cf hci
    unfold CuckooFilter.insertLoop
    split_ifs <;> first | exact hci | exact ih _ _ _ _ (hc _ _)

/-- C17: bucket indices stay in range. For a table of `2 ^ k` buckets and every 32-bit `hv`,
`getIndex(hv)` equals `hv mod table_size` and is below `table_size`. Hence the first-pass index
of every element, every value of `indexComplement` (the second candidate bucket and every
bucket of a kick chain), the final `curr_index` of the kick loop and the victim index that a
failed `insert` records are all below `table_size`. -/
theorem CuckooFilter.bucket_indices_in_range {α : Type} (env : FilterEnv α) (F : CuckooFilter)
    (k : Nat) (hts : F.table.table_size = 2 ^ k) :
    (∀ hv, hv < 2 ^ 32 →
      F.getIndex hv = hv % F.table.table_size ∧ F.getIndex hv < F.table.table_size) ∧
    (∀ e : α, (CuckooFilter.firstPass env F e).2 < F.table.table_size) ∧
    (∀ i fp, CuckooFilter.indexComplement env F i fp < F.table.table_size) ∧
    (∀ (draws : Nat → Nat) (remaining kicks : Nat) (t : CuckooTable) (ci cf : Nat),
      ci < F.table.table_size →
      (CuckooFilter.insertLoop env F draws remaining kicks t ci cf).curr_index <
        F.table.table_size) ∧
    (∀ (fp index : Nat) (draws : Nat → Nat), index < F.table.table_size →
      (CuckooFilter.insert env F fp index draws).2 = false →
      (CuckooFilter.insert env F fp index draws).1.victim.index < F.table.table_size) := by
  have h1 : ∀ hv, hv < 2 ^ 32 →
      F.getIndex hv = hv % F.table.table_size ∧ F.getIndex hv < F.table.table_size := by
    intro hv hhv
    rw [CuckooFilter.getIndex_of_lt F k hts hv hhv, hts]
    exact ⟨rfl, Nat.mod_lt _ (Nat.two_pow_pos k)⟩
  have h3 : ∀ i fp, CuckooFilter.indexComplement env F i fp < F.table.table_size := by
    intro i fp
    unfold CuckooFilter.indexComplement CuckooFilter.fingerprintComplement
    exact Nat.lt_of_le_of_lt (Nat.mod_le _ _) (h1 _ (Nat.mod_lt _ (by decide))).2
  have h4 := fun draws => CuckooFilter.insertLoop_curr_index_lt env F draws F.table.table_size h3
  refine ⟨h1, fun e => (h1 _ (Nat.mod_lt _ (by decide))).2, h3, h4, ?_⟩
  intro fp index draws hi hfail
  by_cases hp : (CuckooFilter.insertLoop env F draws env.KICKS_MAX_COUNT 0 F.table index
      fp).placed = true
  · simp [CuckooFilter.insert, hp] at hfail
  · simp only [CuckooFilter.insert, hp, if_false]
    exact h4 draws _ _ _ _ _ hi

/-- Witness of C17: in the sample filter (`2 ^ 1` buckets) the hash value 7 is mapped to bucket
`7 % 2 = 1`. -/
theorem CuckooFilter.bucket_indices_in_range_witness :
    sampleFresh.getIndex 7 = 7 % sampleFresh.table.table_size ∧
      sampleFresh.getIndex 7 < sampleFresh.table.table_size :=
  (CuckooFilter.bucket_indices_in_range sampleEnv sampleFresh 1 rfl).1 7 (by decide)

/-- C18: fingerprint derivation. In a filter built by the constructor, hence of a supported
width `bits_per_fp`, `fp_mask` is `2 ^ bits_per_fp - 1`, and for every seed `h`,
`fingerprint(h)` equals `h & fp_mask` when that value is nonzero and equals 1 otherwise; so
`1 ≤ fingerprint(h) ≤ 2 ^ bits_per_fp - 1`. -/
theorem CuckooFilter.fingerprint_derivation (fp_type : FpType)
    (max_table_size bits_per_fp entries_per_bucket : Nat) (F : CuckooFilter)
    (hnew : CuckooFilter.new fp_type max_table_size bits_per_fp entries_per_bucket = Except.ok F)
    (h : Nat) :
    F.fp_mask = 2 ^ bits_per_fp - 1 ∧
    F.fingerprint h =
      (if h &&& (2 ^ bits_per_fp - 1) ≠ 0 then h &&& (2 ^ bits_per_fp - 1) else 1) ∧
    1 ≤ F.fingerprint h ∧ F.fingerprint h ≤ 2 ^ bits_per_fp - 1 := by
  obtain ⟨hwf, _, _, _, _, hbm, _⟩ := CuckooFilter.new_fresh _ _ _ _ _ hnew
  have hbits : F.table.bit_manager.bits_per_fp = bits_per_fp := by rw [hbm]
  have hmask : F.fp_mask = 2 ^ bits_per_fp - 1 := by rw [hwf.2, hwf.1.2.2.1, hbits]
  obtain ⟨hne, hlt⟩ := CuckooFilter.fingerprint_ne_zero_lt F hwf h
  rw [hbits] at hlt
  refine ⟨hmask, ?_, Nat.pos_of_ne_zero hne, by omega⟩
  have hb32 : bits_per_fp ≤ 32 := by rw [← hbits]; exact hwf.1.2.2.2.2.1
  have hle : 2 ^ bits_per_fp ≤ 2 ^ 32 := Nat.pow_le_pow_right (by decide) hb32
  have hand : h &&& (2 ^ bits_per_fp - 1) < 2 ^ bits_per_fp := by
    rw [Nat.and_pow_two_sub_one_eq_mod]
    exact Nat.mod_lt _ (Nat.two_pow_pos _)
  unfold CuckooFilter.fingerprint
  rw [hmask]
  by_cases hz : h &&& (2 ^ bits_per_fp - 1) = 0
  · rw [hz]
    simp
  · simp only [hz, if_false, Nat.add_zero, ne_eq, not_false_eq_true, if_true]
    exact Nat.mod_eq_of_lt (by omega)

/-- Witness of C18: in the 8-bit sample filter the seed `0x300` is masked to 0 and yields the
fingerprint 1. -/
theorem CuckooFilter.fingerprint_derivation_witness :
    sampleFresh.fingerprint 0x300 = 1 :=
  (CuckooFilter.fingerprint_derivation FpType.uint8_t 2 8 4 sampleFresh rfl 0x300).2.1

/-! ## Occupancy along the kick loop -/

theorem CuckooTable.replacingFingerprintInsertion_occupied (t : CuckooTable) (h : t.WF)
    (ci cf : Nat) (eject : Bool) (r : Nat) (hci : ci < t.table_size) (hcf0 : cf ≠ 0)
    (hcf : cf < 2 ^ t.bit_manager.bits_per_fp) :
    (t.replacingFingerprintInsertion ci cf eject 0 r).1.occupied =
        t.occupied + (if (t.replacingFingerprintInsertion ci cf eject 0 r).2.1 = true then 1 else 0) ∧
    ∀ b j, t.getFingerprint b j ≠ 0 →
      (t.replacingFingerprintInsertion ci cf eject 0 r).1.getFingerprint b j ≠ 0 := by
  have hwrite : ∀ j, j < t.bit_manager.entries_per_bucket → ∀ b j', t.getFingerprint b j' ≠ 0 →
      (t.insertFingerprint ci j cf).getFingerprint b j' ≠ 0 := by
    intro j _ b j' hne
    by_cases hsame : b = ci ∧ j' = j
    · obtain ⟨hb, hj'⟩ := hsame
      subst hb hj'
      rw [CuckooTable.getFingerprint_insertFingerprint_same t h b j' cf hci, Nat.mod_eq_of_lt hcf]
      exact hcf0
    · rw [CuckooTable.getFingerprint_insertFingerprint_other t h ci j cf b j' (by
        by_contra hc
        simp only [not_or, not_not] at hc
        exact hsame hc)]
      exact hne
  rcases CuckooTable.replacingFingerprintInsertion_cases t ci cf eject 0 r with
    ⟨j, hj, h0, _, he⟩ | ⟨hfull, he⟩
  · rw [he]
    refine ⟨?_, hwrite j hj⟩
    have key := CuckooTable.occupied_insertFingerprint t h ci j cf hci hj
    rw [h0, Nat.mod_eq_of_lt hcf] at key
    simpa [hcf0] using key
  · rw [he]
    cases eject
    · simp
    · have hnext : r % t.bit_manager.entries_per_bucket < t.bit_manager.entries_per_bucket :=
        Nat.mod_lt _ h.2.2.2.2.2
      refine ⟨?_, hwrite _ hnext⟩
      have key := CuckooTable.occupied_insertFingerprint t h ci _ cf hci hnext
      rw [Nat.mod_eq_of_lt hcf] at key
      simpa [hcf0, hfull _ hnext] using key

theorem CuckooFilter.insertLoop_occupied {α : Type} (env : FilterEnv α) (F : CuckooFilter)
    (hF : F.table.WF) (draws : Nat → Nat) :
    ∀ (remaining kicks : Nat) (t : CuckooTable) (ci cf : Nat),
      t.WF → t.table_size = F.table.table_size → t.bit_manager = F.table.bit_manager →
      ci < F.table.table_size → cf ≠ 0 → cf < 2 ^ F.table.bit_manager.bits_per_fp →
      (CuckooFilter.insertLoop env F draws remaining kicks t ci cf).table.occupied =
        t.occupied +
          (if (CuckooFilter.insertLoop env F draws remaining kicks t ci cf).placed = true
            then 1 else 0) ∧
      ∀ b j, t.getFingerprint b j ≠ 0 →
        (CuckooFilter.insertLoop env F draws remaining kicks t ci cf).table.getFingerprint b j
          ≠ 0 := by
  intro remaining
  induction remaining with
  | zero =>
    intro kicks t ci cf _ _ _ _ _ _
    simp [CuckooFilter.insertLoop]
  | succ n ih =>
    intro kicks t ci cf ht hsz hbm hci hcf0 hcf
    obtain ⟨hs1, hs2, hs3⟩ :=
      CuckooTable.replacingFingerprintInsertion_shape t ht ci cf (kicks != 0) 0 (draws kicks)
    obtain ⟨ho, hnz⟩ := CuckooTable.replacingFingerprintInsertion_occupied t ht ci cf (kicks != 0)
      (draws kicks) (by rw [hsz]; exact hci) hcf0 (by rw [hbm]; exact hcf)
    by_cases hp : (t.replacingFingerprintInsertion ci cf (kicks != 0) 0 (draws kicks)).2.1 = true
    · simp only [CuckooFilter.insertLoop, hp, if_true] at ho ⊢
      exact ⟨ho, hnz⟩
    · have hp' : (t.replacingFingerprintInsertion ci cf (kicks != 0) 0 (draws kicks)).2.1 = false := by
        simpa using hp
      obtain ⟨hn0, hnlt, _⟩ := CuckooFilter.pairCount_kicked env F hF t ht hsz ci cf (kicks != 0)
        (draws kicks) 1 0 (by rw [hsz]; exact hci) hcf0 (by rw [hbm]; exact hcf) (by
          obtain ⟨k, _, hk2⟩ := ht.1
          rw [hk2]; exact Nat.two_pow_pos k) hp'
      obtain ⟨r1, r2⟩ := ih (kicks + 1)
        (t.replacingFingerprintInsertion ci cf (kicks != 0) 0 (draws kicks)).1
        (CuckooFilter.indexComplement env F ci
          (if (kicks != 0) = true then
            (t.replacingFingerprintInsertion ci cf (kicks != 0) 0 (draws kicks)).2.2
           else cf))
        (if (kicks != 0) = true then
          (t.replacingFingerprintInsertion ci cf (kicks != 0) 0 (draws kicks)).2.2
         else cf)
        hs1 (hs2.trans hsz) (hs3.trans hbm)
        (CuckooFilter.indexComplement_lt env F hF _ _) hn0 (by rw [← hbm]; exact hnlt)
      simp only [hp', Bool.false_eq_true, if_false, Nat.add_zero] at ho
      simp only [CuckooFilter.insertLoop, hp', Bool.false_eq_true, if_false]
      rw [ho] at r1
      exact ⟨r1, fun b j hne => r2 b j (hnz b j hne)⟩

theorem CuckooFilter.insert_occupied {α : Type} (env : FilterEnv α) (F : CuckooFilter)
    (h : F.WF) (fp index : Nat) (draws : Nat → Nat) (hi : index < F.table.table_size)
    (hfp0 : fp ≠ 0) (hfp : fp < 2 ^ F.table.bit_manager.bits_per_fp) :
    (∀ b j, F.table.getFingerprint b j ≠ 0 →
      (CuckooFilter.insert env F fp index draws).1.table.getFingerprint b j ≠ 0) ∧
    ((CuckooFilter.insert env F fp index draws).2 = true →
      (CuckooFilter.insert env F fp index draws).1.table.occupied = F.table.occupied + 1 ∧
      (CuckooFilter.insert env F fp index draws).1.element_count =
        (F.element_count + 1) % 2 ^ 64 ∧
      ((F.element_count + 1) % 2 ^ 64 > 0 →
        (CuckooFilter.insert env F fp index draws).1.is_empty = false)) ∧
    ((CuckooFilter.insert env F fp index draws).2 = false →
      (CuckooFilter.insert env F fp index draws).1.table.occupied = F.table.occupied ∧
      (CuckooFilter.insert env F fp index draws).1.element_count = F.element_count) := by
  obtain ⟨ho, hnz⟩ := CuckooFilter.insertLoop_occupied env F h.1 draws env.KICKS_MAX_COUNT 0
    F.table index fp h.1 rfl rfl hi hfp0 hfp
  by_cases hp : (CuckooFilter.insertLoop env F draws env.KICKS_MAX_COUNT 0 F.table index fp).placed
      = true
  · rw [if_pos hp] at ho
    unfold CuckooFilter.insert
    rw [if_pos hp]
    refine ⟨hnz, fun _ => ⟨ho, rfl, fun hpos => ?_⟩, fun hx => Bool.noConfusion hx⟩
    show (if (F.element_count + 1) % 2 ^ 64 > 0 then false else F.is_empty) = false
    rw [if_pos hpos]
  · rw [if_neg hp, Nat.add_zero] at ho
    unfold CuckooFilter.insert
    rw [if_neg hp]
    exact ⟨hnz, fun hx => Bool.noConfusion hx, fun _ => ⟨ho, rfl⟩⟩

set_option maxRecDepth 100000 in
/-- C19 on the code: the calls of `sampleWrapCalls` lead the sample filter to a state with
`element_count = 2 ^ 64 - 1` and `is_empty` true. There `insertElement(0)` returns true and
raises the number of nonzero slots from 4 to 5, but `element_count` wraps to 0 instead of
increasing by one, and `is_empty` stays true because `refreshOnInsert` only clears it when the
new count is positive. -/
theorem CuckooFilter.insertElement_count_wraps :
    (CuckooFilter.run sampleEnv sampleFresh sampleWrapCalls).element_count = 2 ^ 64 - 1 ∧
    (CuckooFilter.run sampleEnv sampleFresh sampleWrapCalls).is_empty = true ∧
    (CuckooFilter.run sampleEnv sampleFresh sampleWrapCalls).table.occupied = 4 ∧
    (CuckooFilter.insertElement sampleEnv
      (CuckooFilter.run sampleEnv sampleFresh sampleWrapCalls) 0 (fun k => k)).2 = true ∧
    (CuckooFilter.insertElement sampleEnv
      (CuckooFilter.run sampleEnv sampleFresh sampleWrapCalls) 0
        (fun k => k)).1.table.occupied = 5 ∧
    (CuckooFilter.insertElement sampleEnv
      (CuckooFilter.run sampleEnv sampleFresh sampleWrapCalls) 0
        (fun k => k)).1.element_count = 0 ∧
    (CuckooFilter.insertElement sampleEnv
      (CuckooFilter.run sampleEnv sampleFresh sampleWrapCalls) 0
        (fun k => k)).1.element_count ≠
      (CuckooFilter.run sampleEnv sampleFresh sampleWrapCalls).element_count + 1 ∧
    (CuckooFilter.insertElement sampleEnv
      (CuckooFilter.run sampleEnv sampleFresh sampleWrapCalls) 0
        (fun k => k)).1.is_empty = true := by
  decide

/-- C19 as amended: insertion conserves occupancy. For every well-formed filter state, every
element and every draws, `insertElement` turns no nonzero slot into 0. When it returns true the
number of nonzero table slots increases by exactly one and, provided `element_count` is below
the maximum of `size_t` (`element_count + 1 < 2 ^ 64`), `element_count` increases by exactly one
and `is_empty` is false. When it returns false the number of nonzero table slots and
`element_count` are both unchanged. -/
theorem CuckooFilter.insertElement_conserves_occupancy {α : Type} (env : FilterEnv α)
    (F : CuckooFilter) (h : F.WF) (e : α) (draws : Nat → Nat) :
    (∀ b j, F.table.getFingerprint b j ≠ 0 →
      (CuckooFilter.insertElement env F e draws).1.table.getFingerprint b j ≠ 0) ∧
    ((CuckooFilter.insertElement env F e draws).2 = true →
      (CuckooFilter.insertElement env F e draws).1.table.occupied = F.table.occupied + 1 ∧
      (F.element_count + 1 < 2 ^ 64 →
        (CuckooFilter.insertElement env F e draws).1.element_count = F.element_count + 1 ∧
        (CuckooFilter.insertElement env F e draws).1.is_empty = false)) ∧
    ((CuckooFilter.insertElement env F e draws).2 = false →
      (CuckooFilter.insertElement env F e draws).1.table.occupied = F.table.occupied ∧
      (CuckooFilter.insertElement env F e draws).1.element_count = F.element_count) := by
  obtain ⟨hfp0, hfp, hi⟩ := CuckooFilter.firstPass_spec env F h e
  obtain ⟨h1, h2, h3⟩ := CuckooFilter.insert_occupied env F h (CuckooFilter.firstPass env F e).1
    (CuckooFilter.firstPass env F e).2 draws hi hfp0 hfp
  refine ⟨h1, fun hok => ?_, h3⟩
  obtain ⟨a, b, c⟩ := h2 hok
  refine ⟨a, fun hcount => ?_⟩
  have hmod : (F.element_count + 1) % 2 ^ 64 = F.element_count + 1 := Nat.mod_eq_of_lt hcount
  rw [hmod] at b c
  exact ⟨b, c (Nat.succ_pos _)⟩

/-- Witness of C19 as amended: the insertion of element 4 into the sample filter that holds
`0, .., 3` returns true, raises the number of nonzero slots from 4 to 5 and `element_count`
from 4 to 5, and leaves `is_empty` false. -/
theorem CuckooFilter.insertElement_conserves_occupancy_witness :
    (CuckooFilter.insertElement sampleEnv
      (CuckooFilter.insertElements sampleEnv sampleFresh (sampleOps 4)).1 4
        (fun k => k)).1.table.occupied =
      (CuckooFilter.insertElements sampleEnv sampleFresh (sampleOps 4)).1.table.occupied + 1 ∧
    (CuckooFilter.insertElement sampleEnv
      (CuckooFilter.insertElements sampleEnv sampleFresh (sampleOps 4)).1 4
        (fun k => k)).1.element_count =
      (CuckooFilter.insertElements sampleEnv sampleFresh (sampleOps 4)).1.element_count + 1 ∧
    (CuckooFilter.insertElement sampleEnv
      (CuckooFilter.insertElements sampleEnv sampleFresh (sampleOps 4)).1 4
        (fun k => k)).1.is_empty = false :=
  ⟨((CuckooFilter.insertElement_conserves_occupancy sampleEnv
      (CuckooFilter.insertElements sampleEnv sampleFresh (sampleOps 4)).1
      ⟨⟨⟨1, by decide, by decide⟩, by decide, by decide, by decide, by decide, by decide⟩,
        by decide⟩
      4 (fun k => k)).2.1 (by decide)).1,
    (((CuckooFilter.insertElement_conserves_occupancy sampleEnv
      (CuckooFilter.insertElements sampleEnv sampleFresh (sampleOps 4)).1
      ⟨⟨⟨1, by decide, by decide⟩, by decide, by decide, by decide, by decide, by decide⟩,
        by decide⟩
      4 (fun k => k)).2.1 (by decide)).2 (by decide))⟩

/-! ## Runs of calls -/

theorem sum_map_range_le (g : Nat → Nat) (n c : Nat) (h : ∀ b, b < n → g b ≤ c) :
    ((List.range n).map g).sum ≤ n * c := by
  induction n with
  | zero => simp
  | succ n ih =>
    rw [List.range_succ, List.map_append, List.sum_append]
    simp only [List.map_cons, List.map_nil, List.sum_cons, List.sum_nil, Nat.add_zero]
    have h1 := ih (fun b hb => h b (Nat.lt_succ_of_lt hb))
    have h2 := h n (Nat.lt_succ_self n)
    rw [Nat.succ_mul]
    omega

theorem CuckooTable.occupied_le (t : CuckooTable) :
    t.occupied ≤ t.table_size * t.bit_manager.entries_per_bucket := by
  unfold CuckooTable.occupied
  apply sum_map_range_le
  intro b _
  unfold CuckooTable.fingerprintCount CuckooTable.entries_per_bucket
  have := List.countP_le_length (fun j => t.getFingerprint b j != 0)
    (l := List.range t.bit_manager.entries_per_bucket)
  rwa [List.length_range] at this

theorem CuckooFilter.deleteElement_miss {α : Type} (env : FilterEnv α) (F : CuckooFilter)
    (e : α) (draws : Nat → Nat)
    (hmiss : (CuckooFilter.deleteEither F.table (CuckooFilter.firstPass env F e).1
      (CuckooFilter.firstPass env F e).2
      (CuckooFilter.indexComplement env F (CuckooFilter.firstPass env F e).2
        (CuckooFilter.firstPass env F e).1)).2 = false) :
    (CuckooFilter.deleteElement env F e draws).1.table = F.table ∧
    (CuckooFilter.deleteElement env F e draws).1.fp_mask = F.fp_mask ∧
    (CuckooFilter.deleteElement env F e draws).1.element_count = F.element_count := by
  rcases CuckooFilter.deleteEither_cases F.table (CuckooFilter.firstPass env F e).1
    (CuckooFilter.firstPass env F e).2
    (CuckooFilter.indexComplement env F (CuckooFilter.firstPass env F e).2
      (CuckooFilter.firstPass env F e).1) with ⟨b, j, _, _, _, he⟩ | ⟨_, _, he⟩
  · rw [he] at hmiss
    exact Bool.noConfusion hmiss
  · unfold CuckooFilter.deleteElement
    simp only [he, Bool.false_eq_true, if_false]
    split_ifs <;> exact ⟨rfl, rfl, rfl⟩

theorem CuckooFilter.run_spec {α : Type} (env : FilterEnv α) :
    ∀ (calls : List (FilterCall α)) (F : CuckooFilter), F.WF →
      F.table.table_size * F.table.bit_manager.entries_per_bucket + 1 < 2 ^ 64 →
      F.element_count = F.table.occupied →
      CuckooFilter.removesNone env F calls = true →
      (CuckooFilter.run env F calls).element_count =
        (CuckooFilter.run env F calls).table.occupied := by
  intro calls
  induction calls with
  | nil => intro F _ _ hc _; exact hc
  | cons c cs ih =>
    intro F h hbound hc hnone
    simp only [CuckooFilter.removesNone, Bool.and_eq_true, Bool.not_eq_true'] at hnone
    obtain ⟨hmiss, hrest⟩ := hnone
    simp only [CuckooFilter.run]
    cases c with
    | insertElement e draws =>
      obtain ⟨hfp0, hfp, hi⟩ := CuckooFilter.firstPass_spec env F h e
      obtain ⟨s1, s2, s3, _, _, _, _⟩ := CuckooFilter.insert_spec env F h
        (CuckooFilter.firstPass env F e).1 (CuckooFilter.firstPass env F e).2 draws hi hfp0 hfp
      obtain ⟨_, o2, o3⟩ := CuckooFilter.insert_occupied env F h
        (CuckooFilter.firstPass env F e).1 (CuckooFilter.firstPass env F e).2 draws hi hfp0 hfp
      apply ih _ s1 (by rw [s2, s3]; exact hbound) _ hrest
      by_cases hok : (CuckooFilter.insert env F (CuckooFilter.firstPass env F e).1
          (CuckooFilter.firstPass env F e).2 draws).2 = true
      · obtain ⟨a, b, _⟩ := o2 hok
        have hle := CuckooTable.occupied_le
          (CuckooFilter.insert env F (CuckooFilter.firstPass env F e).1
            (CuckooFilter.firstPass env F e).2 draws).1.table
        rw [s2, s3, a] at hle
        show (CuckooFilter.insert env F (CuckooFilter.firstPass env F e).1
          (CuckooFilter.firstPass env F e).2 draws).1.element_count = _
        rw [b, a, hc]
        exact Nat.mod_eq_of_lt (by omega)
      · have hok' : (CuckooFilter.insert env F (CuckooFilter.firstPass env F e).1
            (CuckooFilter.firstPass env F e).2 draws).2 = false := by simpa using hok
        obtain ⟨a, b⟩ := o3 hok'
        show (CuckooFilter.insert env F (CuckooFilter.firstPass env F e).1
          (CuckooFilter.firstPass env F e).2 draws).1.element_count = _
        rw [b, a, hc]
    | deleteElement e draws =>
      obtain ⟨d1, d2, d3⟩ := CuckooFilter.deleteElement_miss env F e draws hmiss
      have hwf : (CuckooFilter.deleteElement env F e draws).1.WF := by
        refine ⟨by rw [d1]; exact h.1, ?_⟩
        rw [d1, d2]; exact h.2
      apply ih _ hwf (by
        show (CuckooFilter.deleteElement env F e draws).1.table.table_size * _ + 1 < _
        rw [d1]; exact hbound) _ hrest
      show (CuckooFilter.deleteElement env F e draws).1.element_count = _
      rw [d3, d1, hc]

theorem CuckooTable.occupied_eq_zero (t : CuckooTable) (h0 : ∀ i j, t.getFingerprint i j = 0) :
    t.occupied = 0 := by
  unfold CuckooTable.occupied CuckooTable.fingerprintCount
  apply List.sum_eq_zero
  intro x hx
  simp only [List.mem_map, List.mem_range] at hx
  obtain ⟨b, _, hb⟩ := hx
  rw [← hb, List.countP_eq_zero]
  intro j _
  simp [h0 b j]

/-- C14 on the code: after the calls `insertElement(0), .., insertElement(8)` on the fresh sample
filter, the last of which fails, `element_count` is 8, the table has 8 nonzero slots and a victim
is held, so `element_count` is not the number of nonzero slots plus one; and after
`insertElement(0)` and `deleteElement(0)` the table is empty, no victim is held and
`element_count` is `2 ^ 64 - 1`. -/
theorem CuckooFilter.element_count_invariant_fails :
    ((CuckooFilter.run sampleEnv sampleFresh (sampleCalls 9)).element_count = 8 ∧
      (CuckooFilter.run sampleEnv sampleFresh (sampleCalls 9)).table.occupied = 8 ∧
      (CuckooFilter.run sampleEnv sampleFresh (sampleCalls 9)).victim.fp ≠ 0 ∧
      (CuckooFilter.run sampleEnv sampleFresh (sampleCalls 9)).element_count ≠
        (CuckooFilter.run sampleEnv sampleFresh (sampleCalls 9)).table.occupied +
          (if (CuckooFilter.run sampleEnv sampleFresh (sampleCalls 9)).victim.fp ≠ 0
            then 1 else 0)) ∧
    ((CuckooFilter.run sampleEnv sampleFresh
        [FilterCall.insertElement 0 (fun k => k), FilterCall.deleteElement 0 (fun k => k)]).table.occupied
        = 0 ∧
      (CuckooFilter.run sampleEnv sampleFresh
        [FilterCall.insertElement 0 (fun k => k), FilterCall.deleteElement 0 (fun k => k)]).victim.fp
        = 0 ∧
      (CuckooFilter.run sampleEnv sampleFresh
        [FilterCall.insertElement 0 (fun k => k),
          FilterCall.deleteElement 0 (fun k => k)]).element_count = 2 ^ 64 - 1) := by
  decide

/-- C14 as amended: in every state reachable from a fresh filter by a sequence of
`insertElement` calls, successful or failed, and of `deleteElement` calls that remove no
fingerprint from the table (they return false or only clear the victim), `element_count` equals
the number of nonzero table slots; a held victim is not counted. -/
theorem CuckooFilter.element_count_eq_occupied {α : Type} (env : FilterEnv α)
    (fp_type : FpType) (max_table_size bits_per_fp entries_per_bucket : Nat) (F0 : CuckooFilter)
    (hnew : CuckooFilter.new fp_type max_table_size bits_per_fp entries_per_bucket = Except.ok F0)
    (calls : List (FilterCall α))
    (hnone : CuckooFilter.removesNone env F0 calls = true) :
    (CuckooFilter.run env F0 calls).element_count =
      (CuckooFilter.run env F0 calls).table.occupied := by
  obtain ⟨hwf, _, hcount, _, hsup, hbm, hzero⟩ := CuckooFilter.new_fresh _ _ _ _ _ hnew
  apply CuckooFilter.run_spec env calls F0 hwf _ _ hnone
  · obtain ⟨k, hk, hts⟩ := hwf.1.1
    have hle : 2 ^ k ≤ 2 ^ 32 := Nat.pow_le_pow_right (by decide) hk
    have hen : F0.table.bit_manager.entries_per_bucket ≤ 4 := by
      rw [hbm]
      unfold CuckooTable.supported at hsup
      simp only [Bool.or_eq_true, Bool.and_eq_true, beq_iff_eq] at hsup
      show entries_per_bucket ≤ 4
      omega
    rw [hts]
    have h1 : 2 ^ k * F0.table.bit_manager.entries_per_bucket ≤ 2 ^ 32 * 4 :=
      Nat.mul_le_mul hle hen
    have h2 : (2 : Nat) ^ 32 * 4 + 1 < 2 ^ 64 := by decide
    omega
  · rw [hcount, CuckooTable.occupied_eq_zero F0.table hzero]

/-- Witness of C14 as amended: nine insertions, the last of which fails, followed by
`deleteElement(1)`, which only clears the victim; `element_count` and the number of nonzero
slots are both 8. -/
theorem CuckooFilter.element_count_eq_occupied_witness :
    (CuckooFilter.run sampleEnv sampleFresh
      (sampleCalls 9 ++ [FilterCall.deleteElement 1 (fun k => k)])).element_count = 8 ∧
    (CuckooFilter.run sampleEnv sampleFresh
      (sampleCalls 9 ++ [FilterCall.deleteElement 1 (fun k => k)])).table.occupied = 8 ∧
    (CuckooFilter.run sampleEnv sampleFresh
      (sampleCalls 9 ++ [FilterCall.deleteElement 1 (fun k => k)])).element_count =
    (CuckooFilter.run sampleEnv sampleFresh
      (sampleCalls 9 ++ [FilterCall.deleteElement 1 (fun k => k)])).table.occupied :=
  ⟨by decide, by decide,
    CuckooFilter.element_count_eq_occupied sampleEnv FpType.uint8_t 2 8 4 sampleFresh rfl
      (sampleCalls 9 ++ [FilterCall.deleteElement 1 (fun k => k)]) (by decide)⟩
